import Mathlib

/-!
# Wavious host DMA controller

A shallow embedding of `hw/dma/whost_dma.c` (register bank declared in
`include/hw/dma/whost_dma.h`).

* Machine integers are natural numbers (or integers, for the signed locals of
  the copy loop) with an explicit reduction modulo `2 ^ w` at every place where
  the C code narrows a value.
* The level of the interrupt output `s->irq` is kept in the device state: it is
  the level most recently driven through `qemu_irq_raise` / `qemu_irq_lower`.
* Guest physical memory is a map from address to byte, together with the log of
  the accesses performed through `cpu_physical_memory_read` /
  `cpu_physical_memory_write`.
* The `while (len)` loop of `whost_dma_run` need not terminate; it is embedded
  with a fuel argument bounding the number of iterations, `none` meaning that
  the fuel ran out before the loop exited.
-/

namespace WhostDma

/-! ## Register map -/

/-- Modelled from the spec: the macro `BIT(nr)` of `qemu/bitops.h`, which is
not part of the device source. It is `1UL << nr`, the word with bit `nr` alone
set; the spec numbers the trigger, done and pending bits 0, 1 and 6. -/
def BIT (nr : Nat) : Nat := 1 <<< nr

def DMA_START : Nat := 0x000
def DMA_START_START : Nat := BIT 0
def DMA_START_MUX_START : Nat := BIT 1
def DMA_CONTROLS : Nat := 0x004
def DMA_CONTROLS_MAX_BYTES_MSK : Nat := 0xFF
def DMA_SRC_ADDR : Nat := 0x008
def DMA_LEN : Nat := 0x00C
def DMA_DST_ADDR : Nat := 0x010
def DMA_DST_ADDR_HI : Nat := 0x014
def DMA_SETTINGS : Nat := 0x018
def SETTING_MR_MODE : Nat := BIT 4
def SETTING_MEM_MAP_MODE : Nat := BIT 5
def DMA_IRQ_EN : Nat := 0x54
def DMA_IRQ_EN_DONE : Nat := BIT 1
def DMA_IRQ_STA : Nat := 0x58
def DMA_IRQ_STA_DONE : Nat := BIT 1
def DMA_IRQ_STA_IN : Nat := BIT 6

/-! ## Data model -/

/-- The register bank, `struct whost_dma_regs`: every field is `uint32_t`
except `dst`, which is `uint64_t`. -/
structure whost_dma_regs where
  start : Nat
  control : Nat
  src : Nat
  len : Nat
  dst : Nat
  settings : Nat
  irq_en : Nat
  irq_sta : Nat

/-- The device, `WHostDMAState`: the `uint64_t base` property, the level of
the output line `irq`, and the register bank. -/
structure WHostDMAState where
  base : Nat
  irq : Bool
  regs : whost_dma_regs

/-- Every register holds a value of its C type. -/
def regs_wf (r : whost_dma_regs) : Prop :=
  r.start < 2 ^ 32 ∧ r.control < 2 ^ 32 ∧ r.src < 2 ^ 32 ∧ r.len < 2 ^ 32 ∧
  r.dst < 2 ^ 64 ∧ r.settings < 2 ^ 32 ∧ r.irq_en < 2 ^ 32 ∧ r.irq_sta < 2 ^ 32

instance (r : whost_dma_regs) : Decidable (regs_wf r) := by
  unfold regs_wf
  infer_instance

/-- Every field of the device holds a value of its C type. -/
def state_wf (s : WHostDMAState) : Prop :=
  s.base < 2 ^ 64 ∧ regs_wf s.regs

instance (s : WHostDMAState) : Decidable (state_wf s) := by
  unfold state_wf
  infer_instance

/-! ## Guest physical memory -/

/-- One call of `cpu_physical_memory_read` or `cpu_physical_memory_write`,
with its address and byte count. -/
inductive MemAccess where
  | read (addr size : Nat)
  | write (addr size : Nat)
deriving DecidableEq

/-- Whether the access is a read. -/
def MemAccess.isRead : MemAccess → Bool
  | .read _ _ => true
  | .write _ _ => false

/-- The address of an access. -/
def MemAccess.addr : MemAccess → Nat
  | .read a _ => a
  | .write a _ => a

/-- The byte count of an access. -/
def MemAccess.size : MemAccess → Nat
  | .read _ n => n
  | .write _ n => n

/-- Guest physical memory: the byte stored at every address, and the accesses
performed so far, oldest first. -/
structure PhysMem where
  mem : Nat → Nat
  trace : List MemAccess

/-- Modelled from the spec: `cpu_physical_memory_read(addr, buf, len)`, the
memory collaborator's `read(addr, len) -> bytes`, which is not part of the
device source. It returns the `len` bytes stored at `addr`, `addr + 1`, ... and
records the access. -/
def cpu_physical_memory_read (pm : PhysMem) (addr len : Nat) : List Nat × PhysMem :=
  ((List.range len).map (fun i => pm.mem (addr + i)),
   { pm with trace := pm.trace ++ [MemAccess.read addr len] })

/-- Modelled from the spec: `cpu_physical_memory_write(addr, buf, len)`, the
memory collaborator's `write(addr, bytes)`, which is not part of the device
source. It stores the first `len` bytes of `buf` at `addr`, `addr + 1`, ... and
records the access. -/
def cpu_physical_memory_write (pm : PhysMem) (addr : Nat) (buf : List Nat) (len : Nat) :
    PhysMem :=
  { mem := fun a => if addr ≤ a ∧ a < addr + len then buf.getD (a - addr) 0 else pm.mem a,
    trace := pm.trace ++ [MemAccess.write addr len] }

/-! ## Transfer engine -/

/-- Conversion of a signed value to `int` (32 bits, two's complement). -/
def to_int32 (x : Int) : Int := (x + 2 ^ 31) % 2 ^ 32 - 2 ^ 31

/-- Conversion of a signed value to `hwaddr` (`uint64_t`). -/
def to_hwaddr (x : Int) : Nat := (x % 2 ^ 64).toNat

/-- Modelled from the spec: the macro `MIN(a, b)` of `qemu/osdep.h`, which is
not part of the device source; the spec's `min(step, remaining)`. Its operands
are compared in their common type, here `int64_t`. -/
def MIN (a b : Int) : Int := if a < b then a else b

/-- One iteration of the loop body of `whost_dma_run`: the chunk size is
computed, that many bytes are read from `src` into the buffer and written from
the buffer to `dst`, and the remaining count decreases. The result is the new
remaining count and memory; `src` and `dst` are not assigned to. -/
def whost_dma_run_body (src dst : Nat) (rsize len : Int) (pm : PhysMem) : Int × PhysMem :=
  let size : Int := to_int32 (MIN rsize len)
  let (buf, pm1) := cpu_physical_memory_read pm src (to_hwaddr size)
  let pm2 := cpu_physical_memory_write pm1 dst buf (to_hwaddr size)
  (len - size, pm2)

/-- The loop `while (len) { ... }` of `whost_dma_run`, run for at most `fuel`
iterations; `len` is the `int64_t` remaining count. -/
def whost_dma_run_loop : Nat → Nat → Nat → Int → Int → PhysMem → Option PhysMem
  | fuel, src, dst, rsize, len, pm =>
    if len = 0 then some pm
    else
      match fuel with
      | 0 => none
      | fuel + 1 =>
        let (len1, pm1) := whost_dma_run_body src dst rsize len pm
        whost_dma_run_loop fuel src dst rsize len1 pm1

/-- The source address `s->base + s->regs.src` (`uint64_t` arithmetic). -/
def run_src (s : WHostDMAState) : Nat := (s.base + s.regs.src) % 2 ^ 64

/-- The initial remaining count `s->regs.len + 1`: the sum is computed in
`uint32_t` and then widened to `int64_t`. -/
def run_len (s : WHostDMAState) : Int := (((s.regs.len + 1) % 2 ^ 32 : Nat) : Int)

/-- The chunk size `s->regs.control & DMA_CONTROLS_MAX_BYTES_MSK`, an `int`. -/
def run_rsize (s : WHostDMAState) : Int :=
  ((s.regs.control &&& DMA_CONTROLS_MAX_BYTES_MSK : Nat) : Int)

/-- The function `whost_dma_run`: the copy loop, then the done and pending
bits of `irq_sta` are set. -/
def whost_dma_run (fuel : Nat) (s : WHostDMAState) (pm : PhysMem) :
    Option (WHostDMAState × PhysMem) :=
  match whost_dma_run_loop fuel (run_src s) s.regs.dst (run_rsize s) (run_len s) pm with
  | none => none
  | some pm1 =>
    let sta1 := (s.regs.irq_sta ||| DMA_IRQ_STA_DONE) % 2 ^ 32
    let sta2 := (sta1 ||| DMA_IRQ_STA_IN) % 2 ^ 32
    some ({ s with regs := { s.regs with irq_sta := sta2 } }, pm1)

/-! ## Interrupt line -/

/-- Modelled from the spec: `qemu_irq_raise`, the interrupt-line sink's
`setLevel(true)`, which is not part of the device source. The line is driven
high. -/
def qemu_irq_raise (s : WHostDMAState) : WHostDMAState := { s with irq := true }

/-- Modelled from the spec: `qemu_irq_lower`, the interrupt-line sink's
`setLevel(false)`, which is not part of the device source. The line is driven
low. -/
def qemu_irq_lower (s : WHostDMAState) : WHostDMAState := { s with irq := false }

/-- The function `whost_dma_update_irq`: raise the line when the done enable
bit and the pending status bit are both set, lower it otherwise. -/
def whost_dma_update_irq (s : WHostDMAState) : WHostDMAState :=
  let done_ie : Bool := decide (s.regs.irq_en &&& DMA_IRQ_EN_DONE ≠ 0)
  if done_ie && decide (s.regs.irq_sta &&& DMA_IRQ_STA_IN ≠ 0) then
    qemu_irq_raise s
  else
    qemu_irq_lower s

/-! ## Register file -/

/-- The function `whost_dma_read`: `offset` is a `hwaddr`, `size` the access
width in bytes. -/
def whost_dma_read (s : WHostDMAState) (offset size : Nat) : Nat :=
  let offset := offset &&& 0xFFF
  if offset = DMA_START then s.regs.start
  else if offset = DMA_CONTROLS then s.regs.control
  else if offset = DMA_SRC_ADDR then s.regs.src
  else if offset = DMA_LEN then s.regs.len
  else if offset = DMA_DST_ADDR then
    if size = 4 then s.regs.dst &&& 0x00000000FFFFFFFF else s.regs.dst
  else if offset = DMA_DST_ADDR_HI then s.regs.dst >>> 32
  else if offset = DMA_SETTINGS then s.regs.settings
  else if offset = DMA_IRQ_EN then s.regs.irq_en
  else if offset = DMA_IRQ_STA then s.regs.irq_sta
  else 0

/-- The function `whost_dma_write`: `offset` is a `hwaddr`, `value` a
`uint64_t`, `size` the access width in bytes. Stores into 32-bit registers keep
the low 32 bits of the value. -/
def whost_dma_write (fuel : Nat) (s : WHostDMAState) (pm : PhysMem)
    (offset value size : Nat) : Option (WHostDMAState × PhysMem) :=
  let offset := offset &&& 0xFFF
  if offset = DMA_START then
    let s1 := { s with regs := { s.regs with start := value % 2 ^ 32 } }
    if value &&& DMA_START_START ≠ 0 then
      match whost_dma_run fuel s1 pm with
      | none => none
      | some (s2, pm2) => some (whost_dma_update_irq s2, pm2)
    else
      some (whost_dma_update_irq s1, pm)
  else if offset = DMA_CONTROLS then
    some ({ s with regs := { s.regs with control := value % 2 ^ 32 } }, pm)
  else if offset = DMA_SRC_ADDR then
    some ({ s with regs := { s.regs with src := value % 2 ^ 32 } }, pm)
  else if offset = DMA_LEN then
    some ({ s with regs := { s.regs with len := value % 2 ^ 32 } }, pm)
  else if offset = DMA_DST_ADDR then
    if size = 4 then
      let d1 := s.regs.dst &&& 0xFFFFFFFF00000000
      let d2 := d1 ||| (value &&& 0xFFFFFFFF)
      some ({ s with regs := { s.regs with dst := d2 } }, pm)
    else
      some ({ s with regs := { s.regs with dst := value % 2 ^ 64 } }, pm)
  else if offset = DMA_DST_ADDR_HI then
    let d1 := s.regs.dst &&& 0x00000000FFFFFFFF
    let d2 := d1 ||| ((value <<< 32) % 2 ^ 64)
    some ({ s with regs := { s.regs with dst := d2 } }, pm)
  else if offset = DMA_IRQ_EN then
    some (whost_dma_update_irq { s with regs := { s.regs with irq_en := value % 2 ^ 32 } }, pm)
  else if offset = DMA_SETTINGS then
    some ({ s with regs := { s.regs with settings := value % 2 ^ 32 } }, pm)
  else if offset = DMA_IRQ_STA then
    let sta1 := (s.regs.irq_sta ^^^ (value &&& 0x3F)) % 2 ^ 32
    let sta2 := if sta1 = DMA_IRQ_STA_IN then 0 else sta1
    some (whost_dma_update_irq { s with regs := { s.regs with irq_sta := sta2 } }, pm)
  else
    some (s, pm)

/-- The function `whost_dma_reset`: seven of the registers are given their
reset values; `settings`, `base` and the line level are not touched. -/
def whost_dma_reset (s : WHostDMAState) : WHostDMAState :=
  { s with regs := { s.regs with
      start := 0x0, control := 0x1FFF, src := 0x0, dst := 0x0, len := 0x3FFF,
      irq_en := 0, irq_sta := 0 } }

/-! ## Specification of the copy loop -/

/-- The chunk sizes of a transfer of `n` bytes with chunk size `c`: as many
full chunks as fit, then the remainder if there is one. -/
def chunk_sizes (c n : Nat) : List Nat :=
  List.replicate (n / c) c ++ (if n % c = 0 then [] else [n % c])

/-- The quotient of `n` by `c` rounded up, for `c` not 0. -/
def ceil_div (n c : Nat) : Nat := (n + c - 1) / c

/-- The accesses of a transfer with the given chunk sizes: each chunk is one
read at `src` followed by one write at `dst`. -/
def chunk_accesses (src dst : Nat) : List Nat → List MemAccess
  | [] => []
  | sz :: rest => MemAccess.read src sz :: MemAccess.write dst sz :: chunk_accesses src dst rest

/-- The sizes of the reads of a list of accesses. -/
def read_sizes (acc : List MemAccess) : List Nat :=
  (acc.filter MemAccess.isRead).map MemAccess.size

/-- The sizes of the writes of a list of accesses. -/
def write_sizes (acc : List MemAccess) : List Nat :=
  (acc.filter (fun a => !a.isRead)).map MemAccess.size

/-! ## Example configurations -/

/-- The end-to-end example of the specification: SRC = 0x10, LEN = 15 (16
bytes), chunk size 4, destination 0x1000, the default base, line deasserted. -/
def example_state : WHostDMAState :=
  { base := 0x70000000, irq := false,
    regs := { start := 0, control := 4, src := 0x10, len := 15, dst := 0x1000,
              settings := 0, irq_en := 0, irq_sta := 0 } }

/-- A memory whose byte at address `a` is `a mod 256`, with an empty log. -/
def example_mem : PhysMem :=
  { mem := fun a => a % 256, trace := [] }

/-- The example after a completed transfer with the done interrupt enabled:
`irq_en = 0x2`, `irq_sta = 0x42`, line asserted. -/
def latched_state : WHostDMAState :=
  { base := 0x70000000, irq := true,
    regs := { start := 1, control := 4, src := 0x10, len := 15, dst := 0x1000,
              settings := 0, irq_en := 0x2, irq_sta := 0x42 } }

/-- All registers zero. -/
def zero_regs : whost_dma_regs :=
  { start := 0, control := 0, src := 0, len := 0, dst := 0, settings := 0,
    irq_en := 0, irq_sta := 0 }

/-- A device right after creation and its first reset: zeroed registers on
which `whost_dma_reset` has run, with the line deasserted. -/
def power_on (base : Nat) : WHostDMAState :=
  whost_dma_reset { base := base, irq := false, regs := zero_regs }

/-! ## Sequences of bus operations -/

/-- One operation on the device: a register write (with the fuel granted to
the transfer it may trigger), a register read, or a reset. -/
inductive BusOp where
  | write (fuel offset value size : Nat)
  | read (offset size : Nat)
  | reset

/-- Perform one operation on the device and memory. A read returns a value to
the bus and changes nothing. -/
def bus_step (sp : WHostDMAState × PhysMem) : BusOp → Option (WHostDMAState × PhysMem)
  | .write fuel offset value size => whost_dma_write fuel sp.1 sp.2 offset value size
  | .read _ _ => some sp
  | .reset => some (whost_dma_reset sp.1, sp.2)

/-- Perform a sequence of operations, first to last. -/
def bus_run : List BusOp → WHostDMAState × PhysMem → Option (WHostDMAState × PhysMem)
  | [], sp => some sp
  | op :: ops, sp =>
    match bus_step sp op with
    | none => none
    | some sp1 => bus_run ops sp1

/-- The example with a chunk size of 0: the low byte of CONTROLS is zero. -/
def stalled_state : WHostDMAState :=
  { base := 0x70000000, irq := false,
    regs := { start := 0, control := 0x1F00, src := 0x10, len := 15, dst := 0x1000,
              settings := 0, irq_en := 0, irq_sta := 0 } }

/-- The example with the largest value of LEN. -/
def wrapped_len_state : WHostDMAState :=
  { base := 0x70000000, irq := false,
    regs := { start := 0, control := 4, src := 0x10, len := 0xFFFFFFFF, dst := 0x1000,
              settings := 0, irq_en := 0, irq_sta := 0 } }

/-! ## Iterations of the copy loop -/

/-- The remaining count and memory after at most `k` iterations of the loop
`while (len) { ... }` of `whost_dma_run`: the body runs while the count is not
zero, `k` times at most. This is the loop of `whost_dma_run_loop` observed
after `k` iterations, whether or not it has exited by then. -/
def whost_dma_run_steps : Nat → Nat → Nat → Int → Int → PhysMem → Int × PhysMem
  | 0, _, _, _, len, pm => (len, pm)
  | k + 1, src, dst, rsize, len, pm =>
    if len = 0 then (len, pm)
    else
      let (len1, pm1) := whost_dma_run_body src dst rsize len pm
      whost_dma_run_steps k src dst rsize len1 pm1

/-! ## Register decoding -/

/-- The nine offsets that `whost_dma_read` and `whost_dma_write` decode. -/
def defined_offsets : List Nat :=
  [DMA_START, DMA_CONTROLS, DMA_SRC_ADDR, DMA_LEN, DMA_DST_ADDR, DMA_DST_ADDR_HI,
   DMA_SETTINGS, DMA_IRQ_EN, DMA_IRQ_STA]

/-! ## The copy loop -/

theorem chunk_sizes_zero (c : Nat) : chunk_sizes c 0 = [] := by
  simp [chunk_sizes]

theorem chunk_sizes_step (c n : Nat) (hc : 0 < c) (hn : 0 < n) :
    chunk_sizes c n = min c n :: chunk_sizes c (n - min c n) := by
  rcases Nat.lt_or_ge n c with h | h
  · have h1 : min c n = n := by omega
    have h2 : n / c = 0 := Nat.div_eq_of_lt h
    have h3 : n % c = n := Nat.mod_eq_of_lt h
    have h4 : n ≠ 0 := by omega
    rw [h1, Nat.sub_self, chunk_sizes_zero]
    simp [chunk_sizes, h2, h3, h4]
  · have h1 : min c n = c := by omega
    have h2 : n / c = (n - c) / c + 1 := by
      rw [Nat.div_eq_sub_div hc h]
    have h3 : (n - c) % c = n % c := (Nat.mod_eq_sub_mod h).symm
    rw [h1]
    simp only [chunk_sizes, h2, h3, List.replicate_succ, List.cons_append]

theorem chunk_sizes_sum (c n : Nat) : (chunk_sizes c n).sum = n := by
  have h := Nat.div_add_mod n c
  unfold chunk_sizes
  split
  · rename_i h0
    simp only [List.sum_append, List.sum_replicate, List.sum_nil, smul_eq_mul]
    rw [h0] at h
    rw [Nat.mul_comm] at h
    omega
  · simp only [List.sum_append, List.sum_replicate, List.sum_cons, List.sum_nil, smul_eq_mul]
    rw [Nat.mul_comm] at h
    omega

theorem chunk_sizes_le (c n : Nat) (hc : 0 < c) : ∀ sz ∈ chunk_sizes c n, sz ≤ c := by
  intro sz hsz
  unfold chunk_sizes at hsz
  rcases List.mem_append.mp hsz with h | h
  · exact le_of_eq (List.eq_of_mem_replicate h)
  · split at h
    · simp at h
    · have h1 : sz = n % c := by simpa using h
      have h2 := Nat.mod_lt n hc
      omega

theorem chunk_sizes_pos (c n : Nat) (hc : 0 < c) : ∀ sz ∈ chunk_sizes c n, 0 < sz := by
  intro sz hsz
  unfold chunk_sizes at hsz
  rcases List.mem_append.mp hsz with h | h
  · have := List.eq_of_mem_replicate h
    omega
  · split at h
    · simp at h
    · have h1 : sz = n % c := by simpa using h
      omega

theorem read_sizes_chunk_accesses (src dst : Nat) (l : List Nat) :
    read_sizes (chunk_accesses src dst l) = l := by
  induction l with
  | nil => rfl
  | cons sz rest ih =>
    have r1 : (MemAccess.read src sz).isRead = true := rfl
    have r2 : (MemAccess.write dst sz).isRead = false := rfl
    have r3 : (MemAccess.read src sz).size = sz := rfl
    simp only [read_sizes] at ih
    simp [read_sizes, chunk_accesses, List.filter_cons, r1, r2, r3, ih]

theorem write_sizes_chunk_accesses (src dst : Nat) (l : List Nat) :
    write_sizes (chunk_accesses src dst l) = l := by
  induction l with
  | nil => rfl
  | cons sz rest ih =>
    have r1 : (MemAccess.read src sz).isRead = true := rfl
    have r2 : (MemAccess.write dst sz).isRead = false := rfl
    have r3 : (MemAccess.write dst sz).size = sz := rfl
    simp only [write_sizes] at ih
    simp [write_sizes, chunk_accesses, List.filter_cons, r1, r2, r3, ih]

theorem mem_chunk_accesses (src dst : Nat) (l : List Nat) (a : MemAccess)
    (ha : a ∈ chunk_accesses src dst l) :
    ∃ sz ∈ l, a = MemAccess.read src sz ∨ a = MemAccess.write dst sz := by
  induction l with
  | nil => simp [chunk_accesses] at ha
  | cons sz rest ih =>
    simp only [chunk_accesses, List.mem_cons] at ha
    rcases ha with h | h | h
    · exact ⟨sz, List.mem_cons_self _ _, Or.inl h⟩
    · exact ⟨sz, List.mem_cons_self _ _, Or.inr h⟩
    · obtain ⟨sz1, h1, h2⟩ := ih h
      exact ⟨sz1, List.mem_cons_of_mem _ h1, h2⟩

/-- The chunk size computed by one iteration, for a chunk size register value
`c` and a positive remaining count `n`. -/
theorem to_int32_MIN (c n : Nat) (hc : c ≤ 255) :
    to_int32 (MIN (c : Int) (n : Int)) = ((min c n : Nat) : Int) := by
  unfold to_int32 MIN
  split <;> omega

theorem to_hwaddr_natCast (k : Nat) (hk : k ≤ 255) : to_hwaddr (k : Int) = k := by
  unfold to_hwaddr
  omega

/-- One iteration, in terms of natural numbers. -/
theorem whost_dma_run_body_eq (src dst c n : Nat) (hc : c ≤ 255) (pm : PhysMem) :
    whost_dma_run_body src dst (c : Int) (n : Int) pm =
      (((n - min c n : Nat) : Int),
        cpu_physical_memory_write (cpu_physical_memory_read pm src (min c n)).2 dst
          (cpu_physical_memory_read pm src (min c n)).1 (min c n)) := by
  have h1 := to_int32_MIN c n hc
  have h2 : to_hwaddr ((min c n : Nat) : Int) = min c n :=
    to_hwaddr_natCast _ (by omega)
  unfold whost_dma_run_body
  simp only [h1, h2]
  congr 1
  omega

theorem whost_dma_run_loop_zero (fuel src dst : Nat) (rsize : Int) (pm : PhysMem) :
    whost_dma_run_loop fuel src dst rsize 0 pm = some pm := by
  unfold whost_dma_run_loop
  simp

theorem whost_dma_run_loop_succ (fuel src dst : Nat) (rsize len : Int) (pm : PhysMem)
    (hlen : len ≠ 0) :
    whost_dma_run_loop (fuel + 1) src dst rsize len pm =
      whost_dma_run_loop fuel src dst rsize (whost_dma_run_body src dst rsize len pm).1
        (whost_dma_run_body src dst rsize len pm).2 := by
  rw [whost_dma_run_loop]
  simp [hlen]

theorem whost_dma_run_loop_no_fuel (src dst : Nat) (rsize len : Int) (pm : PhysMem)
    (hlen : len ≠ 0) :
    whost_dma_run_loop 0 src dst rsize len pm = none := by
  rw [whost_dma_run_loop]
  simp [hlen]

/-- With a chunk size in [1,255] the loop exits within `n` iterations. -/
theorem whost_dma_run_loop_terminates (src dst c : Nat) (hc1 : 0 < c) (hc2 : c ≤ 255) :
    ∀ (fuel n : Nat) (pm : PhysMem), n ≤ fuel →
      ∃ pm1, whost_dma_run_loop fuel src dst (c : Int) (n : Int) pm = some pm1 := by
  intro fuel
  induction fuel with
  | zero =>
    intro n pm hn
    have h0 : n = 0 := by omega
    subst h0
    exact ⟨pm, whost_dma_run_loop_zero _ _ _ _ _⟩
  | succ fuel ih =>
    intro n pm hn
    rcases Nat.eq_zero_or_pos n with h0 | hpos
    · subst h0
      exact ⟨pm, whost_dma_run_loop_zero _ _ _ _ _⟩
    · have hne : (n : Int) ≠ 0 := by omega
      rw [whost_dma_run_loop_succ _ _ _ _ _ _ hne, whost_dma_run_body_eq _ _ _ _ hc2]
      exact ih _ _ (by omega)

/-- With a chunk size in [1,255], a loop that exits has appended to the access
log one read and one write per chunk. -/
theorem whost_dma_run_loop_trace (src dst c : Nat) (hc1 : 0 < c) (hc2 : c ≤ 255) :
    ∀ (fuel n : Nat) (pm pm1 : PhysMem),
      whost_dma_run_loop fuel src dst (c : Int) (n : Int) pm = some pm1 →
      pm1.trace = pm.trace ++ chunk_accesses src dst (chunk_sizes c n) := by
  intro fuel
  induction fuel with
  | zero =>
    intro n pm pm1 h
    rcases Nat.eq_zero_or_pos n with h0 | hpos
    · subst h0
      rw [Nat.cast_zero, whost_dma_run_loop_zero] at h
      cases h
      simp [chunk_sizes_zero, chunk_accesses]
    · have hne : (n : Int) ≠ 0 := by omega
      rw [whost_dma_run_loop_no_fuel _ _ _ _ _ hne] at h
      cases h
  | succ fuel ih =>
    intro n pm pm1 h
    rcases Nat.eq_zero_or_pos n with h0 | hpos
    · subst h0
      rw [Nat.cast_zero, whost_dma_run_loop_zero] at h
      cases h
      simp [chunk_sizes_zero, chunk_accesses]
    · have hne : (n : Int) ≠ 0 := by omega
      rw [whost_dma_run_loop_succ _ _ _ _ _ _ hne, whost_dma_run_body_eq _ _ _ _ hc2] at h
      have h1 := ih _ _ _ h
      rw [h1, chunk_sizes_step c n hc1 hpos]
      simp [chunk_accesses, cpu_physical_memory_write, cpu_physical_memory_read]

/-- The result of the loop does not depend on the fuel it was given. -/
theorem whost_dma_run_loop_fuel (src dst : Nat) (rsize : Int) :
    ∀ (f1 f2 : Nat) (len : Int) (pm a b : PhysMem),
      whost_dma_run_loop f1 src dst rsize len pm = some a →
      whost_dma_run_loop f2 src dst rsize len pm = some b → a = b := by
  intro f1
  induction f1 with
  | zero =>
    intro f2 len pm a b h1 h2
    by_cases hlen : len = 0
    · subst hlen
      rw [whost_dma_run_loop_zero] at h1 h2
      cases h1
      cases h2
      rfl
    · rw [whost_dma_run_loop_no_fuel _ _ _ _ _ hlen] at h1
      cases h1
  | succ f1 ih =>
    intro f2 len pm a b h1 h2
    by_cases hlen : len = 0
    · subst hlen
      rw [whost_dma_run_loop_zero] at h1 h2
      cases h1
      cases h2
      rfl
    · cases f2 with
      | zero =>
        rw [whost_dma_run_loop_no_fuel _ _ _ _ _ hlen] at h2
        cases h2
      | succ f2 =>
        rw [whost_dma_run_loop_succ _ _ _ _ _ _ hlen] at h1 h2
        exact ih _ _ _ _ _ h1 h2

/-! ## The transfer engine and the START register -/

theorem run_rsize_le (s : WHostDMAState) : s.regs.control &&& 0xFF ≤ 255 :=
  Nat.and_le_right

/-- A transfer that returns has run its loop to the end and then set the done
and pending bits. -/
theorem whost_dma_run_inv (fuel : Nat) (s : WHostDMAState) (pm : PhysMem)
    (r : WHostDMAState × PhysMem) (h : whost_dma_run fuel s pm = some r) :
    whost_dma_run_loop fuel (run_src s) s.regs.dst (run_rsize s) (run_len s) pm = some r.2 ∧
    r.1 = { s with regs := { s.regs with
      irq_sta := ((s.regs.irq_sta ||| DMA_IRQ_STA_DONE) % 2 ^ 32 ||| DMA_IRQ_STA_IN) % 2 ^ 32 } } := by
  unfold whost_dma_run at h
  split at h
  · cases h
  · rename_i pm1 hloop
    cases h
    exact ⟨hloop, rfl⟩

/-- A transfer whose loop exits returns. -/
theorem whost_dma_run_of_loop (fuel : Nat) (s : WHostDMAState) (pm pm1 : PhysMem)
    (h : whost_dma_run_loop fuel (run_src s) s.regs.dst (run_rsize s) (run_len s) pm = some pm1) :
    whost_dma_run fuel s pm = some ({ s with regs := { s.regs with
      irq_sta := ((s.regs.irq_sta ||| DMA_IRQ_STA_DONE) % 2 ^ 32 ||| DMA_IRQ_STA_IN) % 2 ^ 32 } },
      pm1) := by
  unfold whost_dma_run
  rw [h]

/-- A write to START with the trigger bit set: store, transfer, recompute the
line. -/
theorem whost_dma_write_start_trigger (fuel : Nat) (s : WHostDMAState) (pm : PhysMem)
    (value size : Nat) (hv : value &&& DMA_START_START ≠ 0) :
    whost_dma_write fuel s pm DMA_START value size =
      match whost_dma_run fuel { s with regs := { s.regs with start := value % 2 ^ 32 } } pm with
      | none => none
      | some (s2, pm2) => some (whost_dma_update_irq s2, pm2) := by
  unfold whost_dma_write
  simp only [DMA_START, Nat.zero_and, if_true]
  rw [if_pos hv]

/-- A write to START with the trigger bit clear: store, recompute the line. -/
theorem whost_dma_write_start_idle (fuel : Nat) (s : WHostDMAState) (pm : PhysMem)
    (value size : Nat) (hv : value &&& DMA_START_START = 0) :
    whost_dma_write fuel s pm DMA_START value size =
      some (whost_dma_update_irq { s with regs := { s.regs with start := value % 2 ^ 32 } }, pm) := by
  unfold whost_dma_write
  simp only [DMA_START, Nat.zero_and, if_true]
  rw [if_neg (by simpa using hv)]

/-- A triggered write to START that returns: the loop has exited, and the
resulting device is the old one with `start` stored, done and pending set and
the line recomputed. -/
theorem whost_dma_write_start_trigger_inv (fuel : Nat) (s : WHostDMAState) (pm : PhysMem)
    (value size : Nat) (hv : value &&& DMA_START_START ≠ 0) (s1 : WHostDMAState) (pm1 : PhysMem)
    (h : whost_dma_write fuel s pm DMA_START value size = some (s1, pm1)) :
    whost_dma_run_loop fuel (run_src s) s.regs.dst (run_rsize s) (run_len s) pm = some pm1 ∧
    s1 = whost_dma_update_irq { s with regs := { s.regs with
      start := value % 2 ^ 32,
      irq_sta := ((s.regs.irq_sta ||| DMA_IRQ_STA_DONE) % 2 ^ 32 ||| DMA_IRQ_STA_IN) % 2 ^ 32 } } := by
  rw [whost_dma_write_start_trigger fuel s pm value size hv] at h
  split at h
  · cases h
  · rename_i s2 pm2 hrun
    cases h
    have := whost_dma_run_inv _ _ _ _ hrun
    exact ⟨this.1, congrArg whost_dma_update_irq this.2⟩

/-- A triggered write to START returns as soon as the loop exits. -/
theorem whost_dma_write_start_trigger_of_loop (fuel : Nat) (s : WHostDMAState) (pm pm1 : PhysMem)
    (value size : Nat) (hv : value &&& DMA_START_START ≠ 0)
    (h : whost_dma_run_loop fuel (run_src s) s.regs.dst (run_rsize s) (run_len s) pm = some pm1) :
    whost_dma_write fuel s pm DMA_START value size =
      some (whost_dma_update_irq { s with regs := { s.regs with
        start := value % 2 ^ 32,
        irq_sta := ((s.regs.irq_sta ||| DMA_IRQ_STA_DONE) % 2 ^ 32 ||| DMA_IRQ_STA_IN) % 2 ^ 32 } },
        pm1) := by
  rw [whost_dma_write_start_trigger fuel s pm value size hv]
  have h1 := whost_dma_run_of_loop fuel
    { s with regs := { s.regs with start := value % 2 ^ 32 } } pm pm1 h
  rw [h1]

/-- With a chunk size in [1,255], a triggered write to START returns when given
fuel for `(len + 1) mod 2^32` iterations. -/
theorem whost_dma_write_start_terminates (s : WHostDMAState) (pm : PhysMem) (value size : Nat)
    (hc : 1 ≤ s.regs.control &&& 0xFF) (hv : value &&& DMA_START_START ≠ 0) (fuel : Nat)
    (hfuel : (s.regs.len + 1) % 2 ^ 32 ≤ fuel) :
    ∃ r, whost_dma_write fuel s pm DMA_START value size = some r := by
  obtain ⟨pm1, h1⟩ := whost_dma_run_loop_terminates (run_src s) s.regs.dst
    (s.regs.control &&& 0xFF) hc (run_rsize_le s) fuel ((s.regs.len + 1) % 2 ^ 32) pm hfuel
  exact ⟨_, whost_dma_write_start_trigger_of_loop fuel s pm pm1 value size hv h1⟩

/-- With a chunk size in [1,255], a triggered write to START that returns has
appended to the access log one read at the source and one write at the
destination per chunk. -/
theorem whost_dma_write_start_trace (s : WHostDMAState) (pm : PhysMem) (value size : Nat)
    (hc : 1 ≤ s.regs.control &&& 0xFF) (hv : value &&& DMA_START_START ≠ 0) (fuel : Nat)
    (s1 : WHostDMAState) (pm1 : PhysMem)
    (h : whost_dma_write fuel s pm DMA_START value size = some (s1, pm1)) :
    pm1.trace = pm.trace ++ chunk_accesses (run_src s) s.regs.dst
      (chunk_sizes (s.regs.control &&& 0xFF) ((s.regs.len + 1) % 2 ^ 32)) := by
  have h1 := (whost_dma_write_start_trigger_inv fuel s pm value size hv s1 pm1 h).1
  exact whost_dma_run_loop_trace (run_src s) s.regs.dst (s.regs.control &&& 0xFF) hc
    (run_rsize_le s) fuel _ pm pm1 h1

/-! ## Bit-level facts -/

theorem testBit_eq_false_of_lt (x n i : Nat) (hx : x < 2 ^ n) (hi : n ≤ i) :
    x.testBit i = false :=
  Nat.testBit_lt_two_pow (Nat.lt_of_lt_of_le hx (Nat.pow_le_pow_right (by decide) hi))

theorem irq_sta_done_in (x : Nat) (hx : x < 2 ^ 32) :
    ((x ||| DMA_IRQ_STA_DONE) % 2 ^ 32 ||| DMA_IRQ_STA_IN) % 2 ^ 32 = x ||| 0x42 := by
  have h2 : DMA_IRQ_STA_DONE < 2 ^ 32 := by decide
  have h64 : DMA_IRQ_STA_IN < 2 ^ 32 := by decide
  have h1 : x ||| DMA_IRQ_STA_DONE < 2 ^ 32 := Nat.or_lt_two_pow hx h2
  rw [Nat.mod_eq_of_lt h1, Nat.mod_eq_of_lt (Nat.or_lt_two_pow h1 h64), Nat.or_assoc]
  rfl

theorem mod_and_two (v : Nat) : (v % 2 ^ 32) &&& 2 = v &&& 2 := by
  rw [← Nat.and_pow_two_sub_one_eq_mod, Nat.and_assoc]
  rfl

theorem or_0x42_and_0x40 (x : Nat) : (x ||| 0x42) &&& 0x40 ≠ 0 := by
  intro h
  have h1 : ((x ||| 0x42) &&& 0x40).testBit 6 = true := by
    rw [Nat.testBit_and, Nat.testBit_or]
    have : Nat.testBit 0x42 6 = true := by decide
    have : Nat.testBit 0x40 6 = true := by decide
    simp [*]
  rw [h] at h1
  simp at h1

theorem dst_split_merge (d hi lo : Nat) (hhi : hi < 2 ^ 32) (hlo : lo < 2 ^ 32) :
    (((d &&& 0x00000000FFFFFFFF) ||| ((hi <<< 32) % 2 ^ 64)) &&& 0xFFFFFFFF00000000) |||
      (lo &&& 0xFFFFFFFF) = hi * 2 ^ 32 + lo := by
  have e1 : (0x00000000FFFFFFFF : Nat) = 2 ^ 32 - 1 := by norm_num
  have e2 : (0xFFFFFFFF00000000 : Nat) = (2 ^ 32 - 1) <<< 32 := by decide
  have e3 : hi * 2 ^ 32 + lo = 2 ^ 32 * hi + lo := by ring
  rw [e3]
  apply Nat.eq_of_testBit_eq
  intro i
  rw [Nat.testBit_mul_pow_two_add hi hlo]
  simp only [Nat.testBit_or, Nat.testBit_and, e1, e2, Nat.testBit_two_pow_sub_one,
    Nat.testBit_shiftLeft, Nat.testBit_mod_two_pow]
  by_cases h : i < 32
  · simp [h]
  · have h1 : 32 ≤ i := by omega
    have h2 : lo.testBit i = false := testBit_eq_false_of_lt lo 32 i hlo h1
    have h3 : hi.testBit (i - 32) = false ∨ i < 64 := by
      by_cases h4 : i < 64
      · exact Or.inr h4
      · exact Or.inl (testBit_eq_false_of_lt hi 32 (i - 32) hhi (by omega))
    rcases h3 with h3 | h3
    · simp [h, h1, h2, h3]
    · have h5 : i - 32 < 32 := by omega
      simp [h, h1, h2, h3, h5]

theorem dst_hi_read (hi lo : Nat) (hlo : lo < 2 ^ 32) : (hi * 2 ^ 32 + lo) >>> 32 = hi := by
  rw [Nat.shiftRight_eq_div_pow]
  omega

theorem dst_lo_read (hi lo : Nat) (hlo : lo < 2 ^ 32) :
    (hi * 2 ^ 32 + lo) &&& 0x00000000FFFFFFFF = lo := by
  have e1 : (0x00000000FFFFFFFF : Nat) = 2 ^ 32 - 1 := by norm_num
  rw [e1, Nat.and_pow_two_sub_one_eq_mod]
  omega

theorem mod_and_one (v : Nat) : (v % 2 ^ 32) &&& 1 = v &&& 1 := by
  rw [← Nat.and_pow_two_sub_one_eq_mod, Nat.and_assoc]
  rfl

/-! ## The interrupt line and the register file -/

theorem whost_dma_update_irq_regs (s : WHostDMAState) :
    (whost_dma_update_irq s).regs = s.regs := by
  unfold whost_dma_update_irq
  dsimp only
  split <;> rfl

theorem whost_dma_update_irq_base (s : WHostDMAState) :
    (whost_dma_update_irq s).base = s.base := by
  unfold whost_dma_update_irq
  dsimp only
  split <;> rfl

/-- After `whost_dma_update_irq` the line is asserted exactly when the done
enable bit and the pending bit are both set. -/
theorem whost_dma_update_irq_line (s : WHostDMAState) :
    (whost_dma_update_irq s).irq = true ↔
      (s.regs.irq_en &&& DMA_IRQ_EN_DONE ≠ 0 ∧ s.regs.irq_sta &&& DMA_IRQ_STA_IN ≠ 0) := by
  unfold whost_dma_update_irq
  dsimp only
  split
  · rename_i h
    simpa [qemu_irq_raise] using h
  · rename_i h
    simpa [qemu_irq_lower] using h

theorem whost_dma_write_controls (fuel : Nat) (s : WHostDMAState) (pm : PhysMem)
    (value size : Nat) :
    whost_dma_write fuel s pm DMA_CONTROLS value size =
      some ({ s with regs := { s.regs with control := value % 2 ^ 32 } }, pm) := rfl

theorem whost_dma_write_src_addr (fuel : Nat) (s : WHostDMAState) (pm : PhysMem)
    (value size : Nat) :
    whost_dma_write fuel s pm DMA_SRC_ADDR value size =
      some ({ s with regs := { s.regs with src := value % 2 ^ 32 } }, pm) := rfl

theorem whost_dma_write_len (fuel : Nat) (s : WHostDMAState) (pm : PhysMem)
    (value size : Nat) :
    whost_dma_write fuel s pm DMA_LEN value size =
      some ({ s with regs := { s.regs with len := value % 2 ^ 32 } }, pm) := rfl

theorem whost_dma_write_settings (fuel : Nat) (s : WHostDMAState) (pm : PhysMem)
    (value size : Nat) :
    whost_dma_write fuel s pm DMA_SETTINGS value size =
      some ({ s with regs := { s.regs with settings := value % 2 ^ 32 } }, pm) := rfl

theorem whost_dma_write_dst_addr_4 (fuel : Nat) (s : WHostDMAState) (pm : PhysMem)
    (value : Nat) :
    whost_dma_write fuel s pm DMA_DST_ADDR value 4 =
      some ({ s with regs := { s.regs with
        dst := (s.regs.dst &&& 0xFFFFFFFF00000000) ||| (value &&& 0xFFFFFFFF) } }, pm) := rfl

theorem whost_dma_write_dst_addr_hi (fuel : Nat) (s : WHostDMAState) (pm : PhysMem)
    (value size : Nat) :
    whost_dma_write fuel s pm DMA_DST_ADDR_HI value size =
      some ({ s with regs := { s.regs with
        dst := (s.regs.dst &&& 0x00000000FFFFFFFF) ||| ((value <<< 32) % 2 ^ 64) } }, pm) := rfl

theorem whost_dma_write_irq_en (fuel : Nat) (s : WHostDMAState) (pm : PhysMem)
    (value size : Nat) :
    whost_dma_write fuel s pm DMA_IRQ_EN value size =
      some (whost_dma_update_irq
        { s with regs := { s.regs with irq_en := value % 2 ^ 32 } }, pm) := rfl

theorem whost_dma_write_irq_sta (fuel : Nat) (s : WHostDMAState) (pm : PhysMem)
    (value size : Nat) :
    whost_dma_write fuel s pm DMA_IRQ_STA value size =
      some (whost_dma_update_irq { s with regs := { s.regs with
        irq_sta := if (s.regs.irq_sta ^^^ (value &&& 0x3F)) % 2 ^ 32 = DMA_IRQ_STA_IN then 0
          else (s.regs.irq_sta ^^^ (value &&& 0x3F)) % 2 ^ 32 } }, pm) := rfl

theorem whost_dma_read_start (s : WHostDMAState) (size : Nat) :
    whost_dma_read s DMA_START size = s.regs.start := rfl

theorem whost_dma_read_controls (s : WHostDMAState) (size : Nat) :
    whost_dma_read s DMA_CONTROLS size = s.regs.control := rfl

theorem whost_dma_read_src_addr (s : WHostDMAState) (size : Nat) :
    whost_dma_read s DMA_SRC_ADDR size = s.regs.src := rfl

theorem whost_dma_read_len (s : WHostDMAState) (size : Nat) :
    whost_dma_read s DMA_LEN size = s.regs.len := rfl

theorem whost_dma_read_dst_addr_4 (s : WHostDMAState) :
    whost_dma_read s DMA_DST_ADDR 4 = s.regs.dst &&& 0x00000000FFFFFFFF := rfl

theorem whost_dma_read_dst_addr_8 (s : WHostDMAState) :
    whost_dma_read s DMA_DST_ADDR 8 = s.regs.dst := rfl

theorem whost_dma_read_dst_addr_hi (s : WHostDMAState) (size : Nat) :
    whost_dma_read s DMA_DST_ADDR_HI size = s.regs.dst >>> 32 := rfl

theorem whost_dma_read_settings (s : WHostDMAState) (size : Nat) :
    whost_dma_read s DMA_SETTINGS size = s.regs.settings := rfl

theorem whost_dma_read_irq_en (s : WHostDMAState) (size : Nat) :
    whost_dma_read s DMA_IRQ_EN size = s.regs.irq_en := rfl

theorem whost_dma_read_irq_sta (s : WHostDMAState) (size : Nat) :
    whost_dma_read s DMA_IRQ_STA size = s.regs.irq_sta := rfl

/-- The acknowledge path keeps the status within 32 bits, so the narrowing on
the store changes nothing. -/
theorem irq_sta_xor_mod (x value : Nat) (hx : x < 2 ^ 32) :
    (x ^^^ (value &&& 0x3F)) % 2 ^ 32 = x ^^^ (value &&& 0x3F) := by
  have h1 : value &&& 0x3F ≤ 0x3F := Nat.and_le_right
  exact Nat.mod_eq_of_lt (Nat.xor_lt_two_pow hx (by omega))

/-! ## Transfer totals -/

/-- C1: for a chunk size `c = control & 0xFF` in [1,255] and a length
`n = len + 1` in [1,65536], a write to START with the trigger bit set
terminates; the accesses it appends to the log are such that the read sizes sum
to `n`, the write sizes sum to `n`, and no access is larger than `c` bytes. -/
theorem start_transfer_moves_len_plus_one (s : WHostDMAState) (pm : PhysMem) (value size : Nat)
    (hc : 1 ≤ s.regs.control &&& 0xFF ∧ s.regs.control &&& 0xFF ≤ 255)
    (hn : 1 ≤ s.regs.len + 1 ∧ s.regs.len + 1 ≤ 65536)
    (hv : value &&& DMA_START_START ≠ 0) :
    (∃ fuel r, whost_dma_write fuel s pm DMA_START value size = some r) ∧
    ∀ fuel s1 pm1, whost_dma_write fuel s pm DMA_START value size = some (s1, pm1) →
      ∃ acc, pm1.trace = pm.trace ++ acc ∧
        (read_sizes acc).sum = s.regs.len + 1 ∧
        (write_sizes acc).sum = s.regs.len + 1 ∧
        ∀ a ∈ acc, a.size ≤ s.regs.control &&& 0xFF := by
  have hmod : (s.regs.len + 1) % 2 ^ 32 = s.regs.len + 1 := Nat.mod_eq_of_lt (by omega)
  refine ⟨⟨s.regs.len + 1, ?_⟩, ?_⟩
  · exact whost_dma_write_start_terminates s pm value size hc.1 hv _ (by omega)
  · intro fuel s1 pm1 h
    have htr := whost_dma_write_start_trace s pm value size hc.1 hv fuel s1 pm1 h
    rw [hmod] at htr
    refine ⟨_, htr, ?_, ?_, ?_⟩
    · rw [read_sizes_chunk_accesses, chunk_sizes_sum]
    · rw [write_sizes_chunk_accesses, chunk_sizes_sum]
    · intro a ha
      obtain ⟨sz, hsz, hor⟩ := mem_chunk_accesses _ _ _ a ha
      have hle := chunk_sizes_le _ _ hc.1 sz hsz
      rcases hor with h1 | h1 <;> rw [h1] <;> exact hle

/-- C1 at the example of the specification (chunk size 4, 16 bytes). -/
theorem start_transfer_moves_len_plus_one_witness :
    (1 ≤ example_state.regs.control &&& 0xFF ∧ example_state.regs.control &&& 0xFF ≤ 255) ∧
    (1 ≤ example_state.regs.len + 1 ∧ example_state.regs.len + 1 ≤ 65536) ∧
    (1 &&& DMA_START_START ≠ 0) ∧
    ((∃ fuel r, whost_dma_write fuel example_state example_mem DMA_START 1 4 = some r) ∧
      ∀ fuel s1 pm1,
        whost_dma_write fuel example_state example_mem DMA_START 1 4 = some (s1, pm1) →
        ∃ acc, pm1.trace = example_mem.trace ++ acc ∧
          (read_sizes acc).sum = example_state.regs.len + 1 ∧
          (write_sizes acc).sum = example_state.regs.len + 1 ∧
          ∀ a ∈ acc, a.size ≤ example_state.regs.control &&& 0xFF) :=
  ⟨by decide, by decide, by decide,
    start_transfer_moves_len_plus_one example_state example_mem 1 4
      (by decide) (by decide) (by decide)⟩

/-! ## Memory contents after a transfer -/

/-- C2: the end-to-end example of the specification evaluated on the code.
With SRC = 0x10, LEN = 15, chunk size 4, destination 0x1000, `irq_sta = 0` and
disjoint source and destination ranges, the triggered write returns and IRQ_STA
reads 0x42, but only the first chunk has reached the destination: bytes 0 to 3
of the destination hold bytes 0 to 3 of the source, bytes 4 to 15 of the
destination are unchanged, and the 16 destination bytes are not the 16 source
bytes. -/
theorem example_transfer_copies_first_chunk_only :
    ∃ s1 pm1, whost_dma_write 16 example_state example_mem DMA_START 1 4 = some (s1, pm1) ∧
      whost_dma_read s1 DMA_IRQ_STA 4 = 0x42 ∧
      (∀ i < 4, pm1.mem (example_state.regs.dst + i) =
        example_mem.mem (example_state.base + example_state.regs.src + i)) ∧
      (∀ i < 16, 4 ≤ i → pm1.mem (example_state.regs.dst + i) =
        example_mem.mem (example_state.regs.dst + i)) ∧
      ¬ (∀ i < example_state.regs.len + 1, pm1.mem (example_state.regs.dst + i) =
        example_mem.mem (example_state.base + example_state.regs.src + i)) := by
  refine ⟨_, _, rfl, ?_, ?_, ?_, ?_⟩
  · decide
  · decide
  · decide
  · decide

/-! ## Reset -/

/-- C3: after reset the registers hold START = 0, CONTROLS = 0x1FFF, SRC = 0,
DST = 0, LEN = 0x3FFF, IRQ_EN = 0 and IRQ_STA = 0, and a read of each of
these offsets (the destination through either of its two offsets, at any
width) returns that value. -/
theorem reset_restores_defaults (s : WHostDMAState) (size : Nat) :
    (whost_dma_reset s).regs.start = 0 ∧
    (whost_dma_reset s).regs.control = 0x1FFF ∧
    (whost_dma_reset s).regs.src = 0 ∧
    (whost_dma_reset s).regs.dst = 0 ∧
    (whost_dma_reset s).regs.len = 0x3FFF ∧
    (whost_dma_reset s).regs.irq_en = 0 ∧
    (whost_dma_reset s).regs.irq_sta = 0 ∧
    whost_dma_read (whost_dma_reset s) DMA_START size = 0 ∧
    whost_dma_read (whost_dma_reset s) DMA_CONTROLS size = 0x1FFF ∧
    whost_dma_read (whost_dma_reset s) DMA_SRC_ADDR size = 0 ∧
    whost_dma_read (whost_dma_reset s) DMA_DST_ADDR size = 0 ∧
    whost_dma_read (whost_dma_reset s) DMA_DST_ADDR_HI size = 0 ∧
    whost_dma_read (whost_dma_reset s) DMA_LEN size = 0x3FFF ∧
    whost_dma_read (whost_dma_reset s) DMA_IRQ_EN size = 0 ∧
    whost_dma_read (whost_dma_reset s) DMA_IRQ_STA size = 0 := by
  refine ⟨rfl, rfl, rfl, rfl, rfl, rfl, rfl, rfl, rfl, rfl, ?_, ?_, rfl, rfl, rfl⟩
  · show (if size = 4 then (0 : Nat) &&& 0x00000000FFFFFFFF else 0) = 0
    split <;> rfl
  · show (0 : Nat) >>> 32 = 0
    exact Nat.zero_shiftRight 32

/-- C4: a reachable state in which the line does not follow the registers.
From a device fresh out of reset with the line deasserted, enabling the done
interrupt, setting a one-byte length, triggering the transfer and resetting
leaves the line asserted although `irq_en` and `irq_sta` are both zero:
`whost_dma_reset` clears the two registers without recomputing the line. -/
theorem reset_leaves_line_asserted :
    ∃ s pm,
      bus_run [BusOp.write 0 DMA_IRQ_EN 0x2 4, BusOp.write 0 DMA_LEN 0x0 4,
          BusOp.write 1 DMA_START 0x1 4, BusOp.reset]
        (power_on 0x70000000, example_mem) = some (s, pm) ∧
      (power_on 0x70000000).irq = false ∧
      s.irq = true ∧ s.regs.irq_en = 0 ∧ s.regs.irq_sta = 0 ∧
      ¬ (s.irq = true ↔ (s.regs.irq_en &&& 0x2 ≠ 0 ∧ s.regs.irq_sta &&& 0x40 ≠ 0)) := by
  refine ⟨_, _, rfl, rfl, ?_, ?_, ?_, ?_⟩
  · decide
  · decide
  · decide
  · decide

/-! ## Interrupt status: acknowledge -/

/-- C5: a write of `value` to IRQ_STA (any access width) leaves `irq_sta`
equal to 0 if the old status XOR `(value & 0x3F)` is exactly 0x40, and equal to
that XOR otherwise. -/
theorem irq_sta_write_xor_collapse (fuel : Nat) (s : WHostDMAState) (pm : PhysMem)
    (value size : Nat) (hwf : state_wf s) :
    ∃ s1, whost_dma_write fuel s pm DMA_IRQ_STA value size = some (s1, pm) ∧
      s1.regs.irq_sta =
        if s.regs.irq_sta ^^^ (value &&& 0x3F) = 0x40 then 0
        else s.regs.irq_sta ^^^ (value &&& 0x3F) := by
  have hsta : s.regs.irq_sta < 2 ^ 32 := hwf.2.2.2.2.2.2.2.2
  refine ⟨_, whost_dma_write_irq_sta fuel s pm value size, ?_⟩
  rw [whost_dma_update_irq_regs]
  show (if (s.regs.irq_sta ^^^ (value &&& 0x3F)) % 2 ^ 32 = 0x40 then 0
    else (s.regs.irq_sta ^^^ (value &&& 0x3F)) % 2 ^ 32) = _
  rw [irq_sta_xor_mod _ _ hsta]

/-- C5 at a status of 0x42 acknowledged with 0x02. -/
theorem irq_sta_write_xor_collapse_witness :
    state_wf latched_state ∧
    ∃ s1, whost_dma_write 0 latched_state example_mem DMA_IRQ_STA 0x02 4 =
        some (s1, example_mem) ∧
      s1.regs.irq_sta =
        if latched_state.regs.irq_sta ^^^ (0x02 &&& 0x3F) = 0x40 then 0
        else latched_state.regs.irq_sta ^^^ (0x02 &&& 0x3F) :=
  ⟨by decide, irq_sta_write_xor_collapse 0 latched_state example_mem 0x02 4 (by decide)⟩

/-- C6: from `irq_sta = 0` and a chunk size in [1,255], a write to START with
the trigger bit returns and makes IRQ_STA read 0x42; a following write of 0x02
to IRQ_STA makes IRQ_STA read 0 and leaves the line deasserted, whatever
`irq_en` holds. -/
theorem transfer_then_acknowledge_collapses (s : WHostDMAState) (pm : PhysMem)
    (value size : Nat) (hsta : s.regs.irq_sta = 0)
    (hc : 1 ≤ s.regs.control &&& 0xFF ∧ s.regs.control &&& 0xFF ≤ 255)
    (hv : value &&& DMA_START_START ≠ 0) :
    (∃ fuel r, whost_dma_write fuel s pm DMA_START value size = some r) ∧
    ∀ fuel s1 pm1, whost_dma_write fuel s pm DMA_START value size = some (s1, pm1) →
      whost_dma_read s1 DMA_IRQ_STA size = 0x42 ∧
      ∀ fuel2 size2, ∃ s2,
        whost_dma_write fuel2 s1 pm1 DMA_IRQ_STA 0x02 size2 = some (s2, pm1) ∧
        whost_dma_read s2 DMA_IRQ_STA size2 = 0 ∧ s2.irq = false := by
  refine ⟨⟨_, whost_dma_write_start_terminates s pm value size hc.1 hv _ (Nat.le_refl _)⟩, ?_⟩
  intro fuel s1 pm1 h
  have hs1 := (whost_dma_write_start_trigger_inv fuel s pm value size hv s1 pm1 h).2
  have h42 : s1.regs.irq_sta = 0x42 := by
    rw [hs1, whost_dma_update_irq_regs, hsta]
    rfl
  refine ⟨by rw [whost_dma_read_irq_sta, h42], ?_⟩
  intro fuel2 size2
  refine ⟨_, whost_dma_write_irq_sta fuel2 s1 pm1 0x02 size2, ?_, ?_⟩
  · rw [whost_dma_read_irq_sta, whost_dma_update_irq_regs, h42]
    rfl
  · rw [Bool.eq_false_iff]
    intro hline
    have h2 := ((whost_dma_update_irq_line _).mp hline).2
    rw [h42] at h2
    have h3 : (if (0x42 ^^^ (0x02 &&& 0x3F)) % 2 ^ 32 = DMA_IRQ_STA_IN then 0
      else (0x42 ^^^ (0x02 &&& 0x3F)) % 2 ^ 32) &&& DMA_IRQ_STA_IN = 0 := by decide
    exact h2 h3

/-- C6 at the example of the specification. -/
theorem transfer_then_acknowledge_collapses_witness :
    example_state.regs.irq_sta = 0 ∧
    (1 ≤ example_state.regs.control &&& 0xFF ∧ example_state.regs.control &&& 0xFF ≤ 255) ∧
    1 &&& DMA_START_START ≠ 0 ∧
    ((∃ fuel r, whost_dma_write fuel example_state example_mem DMA_START 1 4 = some r) ∧
      ∀ fuel s1 pm1,
        whost_dma_write fuel example_state example_mem DMA_START 1 4 = some (s1, pm1) →
        whost_dma_read s1 DMA_IRQ_STA 4 = 0x42 ∧
        ∀ fuel2 size2, ∃ s2,
          whost_dma_write fuel2 s1 pm1 DMA_IRQ_STA 0x02 size2 = some (s2, pm1) ∧
          whost_dma_read s2 DMA_IRQ_STA size2 = 0 ∧ s2.irq = false) :=
  ⟨by decide, by decide, by decide,
    transfer_then_acknowledge_collapses example_state example_mem 1 4
      (by decide) (by decide) (by decide)⟩

/-! ## Destination address halves -/

/-- C7: for 32-bit `hi` and `lo`, writing `hi` to DST_ADDR_HI and then `lo` to
DST_ADDR with access width 4 leaves the destination equal to
`hi * 2^32 + lo`; an 8-byte read of DST_ADDR then returns `hi * 2^32 + lo`, a
4-byte read of DST_ADDR returns `lo`, and a read of DST_ADDR_HI returns `hi`. -/
theorem dst_split_write_read (fuel : Nat) (s : WHostDMAState) (pm : PhysMem)
    (hi lo size : Nat) (hhi : hi < 2 ^ 32) (hlo : lo < 2 ^ 32) :
    ∃ s1 s2,
      whost_dma_write fuel s pm DMA_DST_ADDR_HI hi size = some (s1, pm) ∧
      whost_dma_write fuel s1 pm DMA_DST_ADDR lo 4 = some (s2, pm) ∧
      s2.regs.dst = hi * 2 ^ 32 + lo ∧
      whost_dma_read s2 DMA_DST_ADDR 8 = hi * 2 ^ 32 + lo ∧
      whost_dma_read s2 DMA_DST_ADDR 4 = lo ∧
      whost_dma_read s2 DMA_DST_ADDR_HI size = hi := by
  have hdst := dst_split_merge s.regs.dst hi lo hhi hlo
  refine ⟨_, _, whost_dma_write_dst_addr_hi fuel s pm hi size,
    whost_dma_write_dst_addr_4 fuel _ pm lo, hdst, ?_, ?_, ?_⟩
  · rw [whost_dma_read_dst_addr_8]
    exact hdst
  · rw [whost_dma_read_dst_addr_4]
    exact (congrArg (fun d => d &&& 0x00000000FFFFFFFF) hdst).trans (dst_lo_read hi lo hlo)
  · rw [whost_dma_read_dst_addr_hi]
    exact (congrArg (fun d => d >>> 32) hdst).trans (dst_hi_read hi lo hlo)

/-- C7 at the example of the specification: `hi = 0x1`, `lo = 0x2` give the
destination 0x100000002. -/
theorem dst_split_write_read_witness :
    (0x1 < 2 ^ 32 ∧ 0x2 < 2 ^ 32) ∧
    ∃ s1 s2,
      whost_dma_write 0 example_state example_mem DMA_DST_ADDR_HI 0x1 4 =
        some (s1, example_mem) ∧
      whost_dma_write 0 s1 example_mem DMA_DST_ADDR 0x2 4 = some (s2, example_mem) ∧
      s2.regs.dst = 0x100000002 ∧
      whost_dma_read s2 DMA_DST_ADDR 8 = 0x100000002 ∧
      whost_dma_read s2 DMA_DST_ADDR 4 = 0x2 ∧
      whost_dma_read s2 DMA_DST_ADDR_HI 4 = 0x1 :=
  ⟨by decide,
    dst_split_write_read 0 example_state example_mem 0x1 0x2 4 (by decide) (by decide)⟩

/-! ## Write then read -/

/-- C8, as stated, fails at IRQ_STA: with `irq_sta = 0`, writing 0x40 to
IRQ_STA and reading IRQ_STA back at the same width returns 0, not 0x40. -/
theorem irq_sta_write_read_differs :
    ∃ s1 pm1, whost_dma_write 0 example_state example_mem DMA_IRQ_STA 0x40 4 = some (s1, pm1) ∧
      whost_dma_read s1 DMA_IRQ_STA 4 = 0 ∧
      whost_dma_read s1 DMA_IRQ_STA 4 ≠ 0x40 := by
  refine ⟨_, _, rfl, ?_, ?_⟩
  · decide
  · decide

/-- C8, amended: for START, CONTROLS, SRC_ADDR, LEN, SETTINGS and IRQ_EN and
every 32-bit `v`, a write of `v` followed by a read of the same offset at the
same width returns `v` (the write returns at once, except a START write with
the trigger bit, which returns when the chunk size is not 0). IRQ_STA does not
round-trip: the read after a write of `v` returns 0 if the old status XOR
`(v & 0x3F)` is 0x40, and that XOR otherwise. -/
theorem register_write_read_roundtrip (s : WHostDMAState) (pm : PhysMem)
    (offset v size : Nat) (hwf : state_wf s) (hv : v < 2 ^ 32)
    (hoff : offset ∈
      [DMA_START, DMA_CONTROLS, DMA_SRC_ADDR, DMA_LEN, DMA_SETTINGS, DMA_IRQ_EN]) :
    ((offset ≠ DMA_START ∨ v &&& DMA_START_START = 0 ∨ 1 ≤ s.regs.control &&& 0xFF) →
      ∃ fuel r, whost_dma_write fuel s pm offset v size = some r) ∧
    (∀ fuel s1 pm1, whost_dma_write fuel s pm offset v size = some (s1, pm1) →
      whost_dma_read s1 offset size = v) ∧
    (∀ fuel, ∃ s1, whost_dma_write fuel s pm DMA_IRQ_STA v size = some (s1, pm) ∧
      whost_dma_read s1 DMA_IRQ_STA size =
        if s.regs.irq_sta ^^^ (v &&& 0x3F) = 0x40 then 0
        else s.regs.irq_sta ^^^ (v &&& 0x3F)) := by
  have hmod : v % 2 ^ 32 = v := Nat.mod_eq_of_lt hv
  refine ⟨?_, ?_, ?_⟩
  · intro hcase
    simp only [List.mem_cons, List.mem_singleton, List.not_mem_nil, or_false] at hoff
    rcases hoff with h | h | h | h | h | h
    · subst h
      by_cases htrig : v &&& DMA_START_START = 0
      · exact ⟨0, _, whost_dma_write_start_idle 0 s pm v size htrig⟩
      · have hc : 1 ≤ s.regs.control &&& 0xFF := by
          rcases hcase with h1 | h1 | h1
          · exact absurd rfl h1
          · exact absurd h1 htrig
          · exact h1
        exact ⟨_, whost_dma_write_start_terminates s pm v size hc htrig _ (Nat.le_refl _)⟩
    · subst h
      exact ⟨0, _, whost_dma_write_controls 0 s pm v size⟩
    · subst h
      exact ⟨0, _, whost_dma_write_src_addr 0 s pm v size⟩
    · subst h
      exact ⟨0, _, whost_dma_write_len 0 s pm v size⟩
    · subst h
      exact ⟨0, _, whost_dma_write_settings 0 s pm v size⟩
    · subst h
      exact ⟨0, _, whost_dma_write_irq_en 0 s pm v size⟩
  · intro fuel s1 pm1 hw
    simp only [List.mem_cons, List.mem_singleton, List.not_mem_nil, or_false] at hoff
    rcases hoff with h | h | h | h | h | h
    · subst h
      rw [whost_dma_read_start]
      by_cases htrig : v &&& DMA_START_START = 0
      · rw [whost_dma_write_start_idle fuel s pm v size htrig] at hw
        cases hw
        rw [whost_dma_update_irq_regs]
        exact hmod
      · have hs1 := (whost_dma_write_start_trigger_inv fuel s pm v size htrig s1 pm1 hw).2
        rw [hs1, whost_dma_update_irq_regs]
        exact hmod
    · subst h
      rw [whost_dma_write_controls] at hw
      cases hw
      exact hmod
    · subst h
      rw [whost_dma_write_src_addr] at hw
      cases hw
      exact hmod
    · subst h
      rw [whost_dma_write_len] at hw
      cases hw
      exact hmod
    · subst h
      rw [whost_dma_write_settings] at hw
      cases hw
      exact hmod
    · subst h
      rw [whost_dma_write_irq_en] at hw
      cases hw
      rw [whost_dma_read_irq_en, whost_dma_update_irq_regs]
      exact hmod
  · intro fuel
    have hsta : s.regs.irq_sta < 2 ^ 32 := hwf.2.2.2.2.2.2.2.2
    refine ⟨_, whost_dma_write_irq_sta fuel s pm v size, ?_⟩
    rw [whost_dma_read_irq_sta, whost_dma_update_irq_regs]
    show (if (s.regs.irq_sta ^^^ (v &&& 0x3F)) % 2 ^ 32 = 0x40 then 0
      else (s.regs.irq_sta ^^^ (v &&& 0x3F)) % 2 ^ 32) = _
    rw [irq_sta_xor_mod _ _ hsta]

/-- C8, amended, at a write of 0x1234 to LEN in the example of the
specification. -/
theorem register_write_read_roundtrip_witness :
    state_wf example_state ∧ 0x1234 < 2 ^ 32 ∧
    DMA_LEN ∈ [DMA_START, DMA_CONTROLS, DMA_SRC_ADDR, DMA_LEN, DMA_SETTINGS, DMA_IRQ_EN] ∧
    (((DMA_LEN ≠ DMA_START ∨ 0x1234 &&& DMA_START_START = 0 ∨
        1 ≤ example_state.regs.control &&& 0xFF) →
      ∃ fuel r, whost_dma_write fuel example_state example_mem DMA_LEN 0x1234 4 = some r) ∧
    (∀ fuel s1 pm1,
      whost_dma_write fuel example_state example_mem DMA_LEN 0x1234 4 = some (s1, pm1) →
      whost_dma_read s1 DMA_LEN 4 = 0x1234) ∧
    (∀ fuel, ∃ s1,
      whost_dma_write fuel example_state example_mem DMA_IRQ_STA 0x1234 4 =
        some (s1, example_mem) ∧
      whost_dma_read s1 DMA_IRQ_STA 4 =
        if example_state.regs.irq_sta ^^^ (0x1234 &&& 0x3F) = 0x40 then 0
        else example_state.regs.irq_sta ^^^ (0x1234 &&& 0x3F))) :=
  ⟨by decide, by decide, by decide,
    register_write_read_roundtrip example_state example_mem DMA_LEN 0x1234 4
      (by decide) (by decide) (by decide)⟩

/-! ## The line after a write -/

/-- A device on which `whost_dma_update_irq` has just run has its line
asserted exactly when its own `irq_en` has bit 1 and its own `irq_sta` bit 6. -/
theorem whost_dma_update_irq_follows (t : WHostDMAState) :
    (whost_dma_update_irq t).irq = true ↔
      ((whost_dma_update_irq t).regs.irq_en &&& 0x2 ≠ 0 ∧
        (whost_dma_update_irq t).regs.irq_sta &&& 0x40 ≠ 0) := by
  rw [whost_dma_update_irq_regs]
  exact whost_dma_update_irq_line t

/-- A write to START, IRQ_EN or IRQ_STA that returns ends with
`whost_dma_update_irq`. -/
theorem whost_dma_write_recomputes_line (fuel : Nat) (s : WHostDMAState) (pm : PhysMem)
    (offset value size : Nat) (hoff : offset ∈ [DMA_START, DMA_IRQ_EN, DMA_IRQ_STA])
    (s1 : WHostDMAState) (pm1 : PhysMem)
    (hw : whost_dma_write fuel s pm offset value size = some (s1, pm1)) :
    ∃ t, s1 = whost_dma_update_irq t := by
  simp only [List.mem_cons, List.mem_singleton, List.not_mem_nil, or_false] at hoff
  rcases hoff with h | h | h
  · subst h
    by_cases htrig : value &&& DMA_START_START = 0
    · rw [whost_dma_write_start_idle fuel s pm value size htrig] at hw
      cases hw
      exact ⟨_, rfl⟩
    · exact ⟨_, (whost_dma_write_start_trigger_inv fuel s pm value size htrig s1 pm1 hw).2⟩
  · subst h
    rw [whost_dma_write_irq_en] at hw
    cases hw
    exact ⟨_, rfl⟩
  · subst h
    rw [whost_dma_write_irq_sta] at hw
    cases hw
    exact ⟨_, rfl⟩

/-- C9: a write to IRQ_EN or to IRQ_STA returns, so does a write to START
with the trigger bit clear, and a write to START with the trigger bit set
returns as soon as the copy loop does, which it does when the chunk size is not
0. Right after each of these writes the line is asserted if and only if the
resulting `irq_en` has bit 1 set and the resulting `irq_sta` has bit 6 set, and
the same holds of every such write that returns. In particular a write to
IRQ_EN of a value with bit 1 clear returns with the line deasserted, from any
state and so from one with the line asserted. -/
theorem line_follows_registers_after_write (s : WHostDMAState) (pm : PhysMem) :
    (∀ fuel value size, ∃ s1,
      whost_dma_write fuel s pm DMA_IRQ_EN value size = some (s1, pm) ∧
      (s1.irq = true ↔ (s1.regs.irq_en &&& 0x2 ≠ 0 ∧ s1.regs.irq_sta &&& 0x40 ≠ 0))) ∧
    (∀ fuel value size, ∃ s1,
      whost_dma_write fuel s pm DMA_IRQ_STA value size = some (s1, pm) ∧
      (s1.irq = true ↔ (s1.regs.irq_en &&& 0x2 ≠ 0 ∧ s1.regs.irq_sta &&& 0x40 ≠ 0))) ∧
    (∀ fuel value size, value &&& DMA_START_START = 0 → ∃ s1,
      whost_dma_write fuel s pm DMA_START value size = some (s1, pm) ∧
      (s1.irq = true ↔ (s1.regs.irq_en &&& 0x2 ≠ 0 ∧ s1.regs.irq_sta &&& 0x40 ≠ 0))) ∧
    (∀ fuel value size pm1, value &&& DMA_START_START ≠ 0 →
      whost_dma_run_loop fuel (run_src s) s.regs.dst (run_rsize s) (run_len s) pm = some pm1 →
      ∃ s1, whost_dma_write fuel s pm DMA_START value size = some (s1, pm1) ∧
        (s1.irq = true ↔ (s1.regs.irq_en &&& 0x2 ≠ 0 ∧ s1.regs.irq_sta &&& 0x40 ≠ 0))) ∧
    (∀ value size, value &&& DMA_START_START ≠ 0 → 1 ≤ s.regs.control &&& 0xFF →
      ∃ fuel s1 pm1, whost_dma_write fuel s pm DMA_START value size = some (s1, pm1) ∧
        (s1.irq = true ↔ (s1.regs.irq_en &&& 0x2 ≠ 0 ∧ s1.regs.irq_sta &&& 0x40 ≠ 0))) ∧
    (∀ offset ∈ [DMA_START, DMA_IRQ_EN, DMA_IRQ_STA], ∀ fuel value size s1 pm1,
      whost_dma_write fuel s pm offset value size = some (s1, pm1) →
      (s1.irq = true ↔ (s1.regs.irq_en &&& 0x2 ≠ 0 ∧ s1.regs.irq_sta &&& 0x40 ≠ 0))) ∧
    (∀ fuel value size, value &&& 0x2 = 0 →
      ∃ s1, whost_dma_write fuel s pm DMA_IRQ_EN value size = some (s1, pm) ∧
        s1.regs.irq_en = value % 2 ^ 32 ∧ s1.irq = false) := by
  have hret : ∀ offset ∈ [DMA_START, DMA_IRQ_EN, DMA_IRQ_STA], ∀ fuel value size s1 pm1,
      whost_dma_write fuel s pm offset value size = some (s1, pm1) →
      (s1.irq = true ↔ (s1.regs.irq_en &&& 0x2 ≠ 0 ∧ s1.regs.irq_sta &&& 0x40 ≠ 0)) := by
    intro offset hoff fuel value size s1 pm1 hw
    obtain ⟨t, ht⟩ := whost_dma_write_recomputes_line fuel s pm offset value size hoff s1 pm1 hw
    rw [ht]
    exact whost_dma_update_irq_follows t
  refine ⟨?_, ?_, ?_, ?_, ?_, hret, ?_⟩
  · intro fuel value size
    exact ⟨_, whost_dma_write_irq_en fuel s pm value size, whost_dma_update_irq_follows _⟩
  · intro fuel value size
    exact ⟨_, whost_dma_write_irq_sta fuel s pm value size, whost_dma_update_irq_follows _⟩
  · intro fuel value size htrig
    exact ⟨_, whost_dma_write_start_idle fuel s pm value size htrig,
      whost_dma_update_irq_follows _⟩
  · intro fuel value size pm1 htrig hloop
    exact ⟨_, whost_dma_write_start_trigger_of_loop fuel s pm pm1 value size htrig hloop,
      whost_dma_update_irq_follows _⟩
  · intro value size htrig hc
    obtain ⟨⟨s1, pm1⟩, hw⟩ := whost_dma_write_start_terminates s pm value size hc htrig _
      (Nat.le_refl _)
    exact ⟨_, s1, pm1, hw, hret DMA_START (by decide) _ value size s1 pm1 hw⟩
  · intro fuel value size hbit
    refine ⟨_, whost_dma_write_irq_en fuel s pm value size, ?_, ?_⟩
    · rw [whost_dma_update_irq_regs]
    · rw [Bool.eq_false_iff]
      intro hline
      have h2 := ((whost_dma_update_irq_line _).mp hline).1
      have h3 : (value % 2 ^ 32) &&& DMA_IRQ_EN_DONE = 0 := by
        show (value % 2 ^ 32) &&& 2 = 0
        rw [mod_and_two]
        exact hbit
      exact h2 h3

/-- C9 at the latched example (line asserted): writes to IRQ_EN and IRQ_STA
return with the line following the registers, a write of 0x2 to START (trigger
bit clear) and a write of 0x1 to START (trigger bit set, chunk size 4) return
with the line following the registers, and a write of 0 to IRQ_EN deasserts the
line. -/
theorem line_follows_registers_after_write_witness :
    latched_state.irq = true ∧
    (∀ fuel value size, ∃ s1,
      whost_dma_write fuel latched_state example_mem DMA_IRQ_EN value size =
        some (s1, example_mem) ∧
      (s1.irq = true ↔ (s1.regs.irq_en &&& 0x2 ≠ 0 ∧ s1.regs.irq_sta &&& 0x40 ≠ 0))) ∧
    (∀ fuel value size, ∃ s1,
      whost_dma_write fuel latched_state example_mem DMA_IRQ_STA value size =
        some (s1, example_mem) ∧
      (s1.irq = true ↔ (s1.regs.irq_en &&& 0x2 ≠ 0 ∧ s1.regs.irq_sta &&& 0x40 ≠ 0))) ∧
    (0x2 &&& DMA_START_START = 0 ∧ ∃ s1,
      whost_dma_write 0 latched_state example_mem DMA_START 0x2 4 = some (s1, example_mem) ∧
      (s1.irq = true ↔ (s1.regs.irq_en &&& 0x2 ≠ 0 ∧ s1.regs.irq_sta &&& 0x40 ≠ 0))) ∧
    (0x1 &&& DMA_START_START ≠ 0 ∧ 1 ≤ latched_state.regs.control &&& 0xFF ∧
      ∃ fuel s1 pm1,
        whost_dma_write fuel latched_state example_mem DMA_START 0x1 4 = some (s1, pm1) ∧
        (s1.irq = true ↔ (s1.regs.irq_en &&& 0x2 ≠ 0 ∧ s1.regs.irq_sta &&& 0x40 ≠ 0))) ∧
    (0x0 &&& 0x2 = 0 ∧ ∃ s1,
      whost_dma_write 0 latched_state example_mem DMA_IRQ_EN 0x0 4 = some (s1, example_mem) ∧
      s1.regs.irq_en = 0x0 % 2 ^ 32 ∧ s1.irq = false) :=
  ⟨by decide,
    (line_follows_registers_after_write latched_state example_mem).1,
    (line_follows_registers_after_write latched_state example_mem).2.1,
    ⟨by decide,
      (line_follows_registers_after_write latched_state example_mem).2.2.1 0 0x2 4
        (by decide)⟩,
    ⟨by decide, by decide,
      (line_follows_registers_after_write latched_state example_mem).2.2.2.2.1 0x1 4
        (by decide) (by decide)⟩,
    ⟨by decide,
      (line_follows_registers_after_write latched_state example_mem).2.2.2.2.2.2 0 0x0 4
        (by decide)⟩⟩

/-! ## The START register -/

/-- C10: a write of `value` to START that returns has stored the low 32 bits
of `value` in `start`, bits 0 and 1 as written. With bit 0 clear the write
returns, performs no memory access and leaves `irq_sta` unchanged. With bit 0
set, a write that returns leaves `irq_sta` equal to the old `irq_sta` OR 0x42;
it does return when the chunk size is not 0. -/
theorem start_write_effect (s : WHostDMAState) (pm : PhysMem) (value size : Nat)
    (hwf : state_wf s) :
    (∀ fuel s1 pm1, whost_dma_write fuel s pm DMA_START value size = some (s1, pm1) →
      s1.regs.start = value % 2 ^ 32 ∧
      s1.regs.start &&& 0x1 = value &&& 0x1 ∧ s1.regs.start &&& 0x2 = value &&& 0x2) ∧
    (value &&& DMA_START_START = 0 →
      ∀ fuel, ∃ s1, whost_dma_write fuel s pm DMA_START value size = some (s1, pm) ∧
        s1.regs.irq_sta = s.regs.irq_sta) ∧
    (value &&& DMA_START_START ≠ 0 →
      ∀ fuel s1 pm1, whost_dma_write fuel s pm DMA_START value size = some (s1, pm1) →
        s1.regs.irq_sta = s.regs.irq_sta ||| 0x42) ∧
    (value &&& DMA_START_START ≠ 0 → 1 ≤ s.regs.control &&& 0xFF →
      ∃ fuel r, whost_dma_write fuel s pm DMA_START value size = some r) := by
  have hsta : s.regs.irq_sta < 2 ^ 32 := hwf.2.2.2.2.2.2.2.2
  refine ⟨?_, ?_, ?_, ?_⟩
  · intro fuel s1 pm1 hw
    have hstart : s1.regs.start = value % 2 ^ 32 := by
      by_cases htrig : value &&& DMA_START_START = 0
      · rw [whost_dma_write_start_idle fuel s pm value size htrig] at hw
        cases hw
        rw [whost_dma_update_irq_regs]
      · have hs1 := (whost_dma_write_start_trigger_inv fuel s pm value size htrig s1 pm1 hw).2
        rw [hs1, whost_dma_update_irq_regs]
    rw [hstart]
    exact ⟨rfl, mod_and_one value, mod_and_two value⟩
  · intro htrig fuel
    refine ⟨_, whost_dma_write_start_idle fuel s pm value size htrig, ?_⟩
    rw [whost_dma_update_irq_regs]
  · intro htrig fuel s1 pm1 hw
    have hs1 := (whost_dma_write_start_trigger_inv fuel s pm value size htrig s1 pm1 hw).2
    rw [hs1, whost_dma_update_irq_regs]
    exact irq_sta_done_in s.regs.irq_sta hsta
  · intro htrig hc
    exact ⟨_, whost_dma_write_start_terminates s pm value size hc htrig _ (Nat.le_refl _)⟩

/-- C10 at the example of the specification, with both START bits written. -/
theorem start_write_effect_witness :
    state_wf example_state ∧
    ((∀ fuel s1 pm1,
      whost_dma_write fuel example_state example_mem DMA_START 0x3 4 = some (s1, pm1) →
      s1.regs.start = 0x3 % 2 ^ 32 ∧
      s1.regs.start &&& 0x1 = 0x3 &&& 0x1 ∧ s1.regs.start &&& 0x2 = 0x3 &&& 0x2) ∧
    (0x3 &&& DMA_START_START = 0 →
      ∀ fuel, ∃ s1,
        whost_dma_write fuel example_state example_mem DMA_START 0x3 4 =
          some (s1, example_mem) ∧
        s1.regs.irq_sta = example_state.regs.irq_sta) ∧
    (0x3 &&& DMA_START_START ≠ 0 →
      ∀ fuel s1 pm1,
        whost_dma_write fuel example_state example_mem DMA_START 0x3 4 = some (s1, pm1) →
        s1.regs.irq_sta = example_state.regs.irq_sta ||| 0x42) ∧
    (0x3 &&& DMA_START_START ≠ 0 → 1 ≤ example_state.regs.control &&& 0xFF →
      ∃ fuel r, whost_dma_write fuel example_state example_mem DMA_START 0x3 4 = some r)) :=
  ⟨by decide, start_write_effect example_state example_mem 0x3 4 (by decide)⟩

/-! ## Iterations of the copy loop: general facts -/

theorem whost_dma_run_steps_zero (src dst : Nat) (rsize len : Int) (pm : PhysMem) :
    whost_dma_run_steps 0 src dst rsize len pm = (len, pm) := rfl

theorem whost_dma_run_steps_done (k src dst : Nat) (rsize : Int) (pm : PhysMem) :
    whost_dma_run_steps k src dst rsize 0 pm = (0, pm) := by
  cases k with
  | zero => rfl
  | succ k => simp [whost_dma_run_steps]

theorem whost_dma_run_steps_succ (k src dst : Nat) (rsize len : Int) (pm : PhysMem)
    (hlen : len ≠ 0) :
    whost_dma_run_steps (k + 1) src dst rsize len pm =
      whost_dma_run_steps k src dst rsize (whost_dma_run_body src dst rsize len pm).1
        (whost_dma_run_body src dst rsize len pm).2 := by
  rw [whost_dma_run_steps]
  simp [hlen]

/-- The loop run with `fuel` returns exactly when the count is zero after at
most `fuel` iterations, and it returns the memory reached then. -/
theorem whost_dma_run_loop_eq_steps (src dst : Nat) (rsize : Int) :
    ∀ (fuel : Nat) (len : Int) (pm : PhysMem),
      whost_dma_run_loop fuel src dst rsize len pm =
        if (whost_dma_run_steps fuel src dst rsize len pm).1 = 0
        then some (whost_dma_run_steps fuel src dst rsize len pm).2 else none := by
  intro fuel
  induction fuel with
  | zero =>
    intro len pm
    by_cases hlen : len = 0
    · subst hlen
      rw [whost_dma_run_loop_zero, whost_dma_run_steps_zero]
      simp
    · rw [whost_dma_run_loop_no_fuel _ _ _ _ _ hlen, whost_dma_run_steps_zero]
      simp [hlen]
  | succ fuel ih =>
    intro len pm
    by_cases hlen : len = 0
    · subst hlen
      rw [whost_dma_run_loop_zero, whost_dma_run_steps_done]
      simp
    · rw [whost_dma_run_loop_succ _ _ _ _ _ _ hlen, whost_dma_run_steps_succ _ _ _ _ _ _ hlen]
      exact ih _ _

/-- The accesses of one iteration: one read at `src` and one write at `dst`,
both of the chunk size computed by the iteration. -/
theorem whost_dma_run_body_trace (src dst : Nat) (rsize len : Int) (pm : PhysMem) :
    (whost_dma_run_body src dst rsize len pm).2.trace =
      pm.trace ++ [MemAccess.read src (to_hwaddr (to_int32 (MIN rsize len))),
        MemAccess.write dst (to_hwaddr (to_int32 (MIN rsize len)))] := by
  simp [whost_dma_run_body, cpu_physical_memory_read, cpu_physical_memory_write]

theorem whost_dma_run_body_len (src dst : Nat) (rsize len : Int) (pm : PhysMem) :
    (whost_dma_run_body src dst rsize len pm).1 = len - to_int32 (MIN rsize len) := rfl

/-- Whatever the chunk size and count, the accesses of the first `k`
iterations are reads at `src` and writes at `dst`. -/
theorem whost_dma_run_steps_addr (src dst : Nat) (rsize : Int) :
    ∀ (k : Nat) (len : Int) (pm : PhysMem),
      ∃ acc, (whost_dma_run_steps k src dst rsize len pm).2.trace = pm.trace ++ acc ∧
        ∀ a ∈ acc, (a.isRead = true ∧ a.addr = src) ∨ (a.isRead = false ∧ a.addr = dst) := by
  intro k
  induction k with
  | zero =>
    intro len pm
    exact ⟨[], by simp [whost_dma_run_steps_zero], by simp⟩
  | succ k ih =>
    intro len pm
    by_cases hlen : len = 0
    · subst hlen
      exact ⟨[], by simp [whost_dma_run_steps_done], by simp⟩
    · rw [whost_dma_run_steps_succ _ _ _ _ _ _ hlen]
      obtain ⟨acc, h1, h2⟩ := ih (whost_dma_run_body src dst rsize len pm).1
        (whost_dma_run_body src dst rsize len pm).2
      refine ⟨[MemAccess.read src (to_hwaddr (to_int32 (MIN rsize len))),
        MemAccess.write dst (to_hwaddr (to_int32 (MIN rsize len)))] ++ acc, ?_, ?_⟩
      · rw [h1, whost_dma_run_body_trace, List.append_assoc]
      · intro a ha
        rcases List.mem_append.mp ha with h | h
        · simp only [List.mem_cons, List.mem_singleton, List.not_mem_nil, or_false] at h
          rcases h with h | h
          · subst h
            exact Or.inl ⟨rfl, rfl⟩
          · subst h
            exact Or.inr ⟨rfl, rfl⟩
        · exact h2 a h

/-- The chunk size of an iteration, as passed to the memory interface, is at
most 255 when the chunk size register value is in [0,255] and the count is not
negative; the count stays non-negative. -/
theorem chunk_size_bound (rsize len : Int) (hr : 0 ≤ rsize ∧ rsize ≤ 255) (hl : 0 ≤ len) :
    to_hwaddr (to_int32 (MIN rsize len)) ≤ 255 ∧ 0 ≤ len - to_int32 (MIN rsize len) := by
  unfold to_hwaddr to_int32 MIN
  split <;> omega

/-- With a chunk size register value in [0,255] and a non-negative count, no
access of the first `k` iterations is larger than 255 bytes. -/
theorem whost_dma_run_steps_size (src dst : Nat) (rsize : Int)
    (hr : 0 ≤ rsize ∧ rsize ≤ 255) :
    ∀ (k : Nat) (len : Int) (pm : PhysMem), 0 ≤ len →
      ∃ acc, (whost_dma_run_steps k src dst rsize len pm).2.trace = pm.trace ++ acc ∧
        ∀ a ∈ acc, a.size ≤ 255 := by
  intro k
  induction k with
  | zero =>
    intro len pm _
    exact ⟨[], by simp [whost_dma_run_steps_zero], by simp⟩
  | succ k ih =>
    intro len pm hl
    by_cases hlen : len = 0
    · subst hlen
      exact ⟨[], by simp [whost_dma_run_steps_done], by simp⟩
    · rw [whost_dma_run_steps_succ _ _ _ _ _ _ hlen]
      have hb := chunk_size_bound rsize len hr hl
      obtain ⟨acc, h1, h2⟩ := ih (whost_dma_run_body src dst rsize len pm).1
        (whost_dma_run_body src dst rsize len pm).2 hb.2
      refine ⟨[MemAccess.read src (to_hwaddr (to_int32 (MIN rsize len))),
        MemAccess.write dst (to_hwaddr (to_int32 (MIN rsize len)))] ++ acc, ?_, ?_⟩
      · rw [h1, whost_dma_run_body_trace, List.append_assoc]
      · intro a ha
        rcases List.mem_append.mp ha with h | h
        · simp only [List.mem_cons, List.mem_singleton, List.not_mem_nil, or_false] at h
          rcases h with h | h
          · subst h
            exact hb.1
          · subst h
            exact hb.1
        · exact h2 a h

theorem run_rsize_range (s : WHostDMAState) : 0 ≤ run_rsize s ∧ run_rsize s ≤ 255 := by
  have h := run_rsize_le s
  unfold run_rsize DMA_CONTROLS_MAX_BYTES_MSK
  omega

theorem run_len_nonneg (s : WHostDMAState) : 0 ≤ run_len s := by
  unfold run_len
  omega

/-! ## The initial remaining count -/

/-- Below the largest value of LEN the initial count is `len + 1`. -/
theorem run_len_of_lt (s : WHostDMAState) (h : s.regs.len < 0xFFFFFFFF) :
    run_len s = ((s.regs.len + 1 : Nat) : Int) := by
  unfold run_len
  have : (s.regs.len + 1) % 2 ^ 32 = s.regs.len + 1 := Nat.mod_eq_of_lt (by omega)
  rw [this]

/-- C11: the claim evaluated on the code at LEN = 0xFFFFFFFF, a 32-bit value.
The sum `s->regs.len + 1` is computed in 32 bits and wraps, so the transfer
engine starts with a remaining count of 0, which is neither `len + 1` nor at
least 1; the triggered write returns without running the loop body, performs no
memory access and still reports completion with `irq_sta = 0x42`. -/
theorem wrapped_len_transfer_is_empty :
    state_wf wrapped_len_state ∧
    wrapped_len_state.regs.len = 0xFFFFFFFF ∧
    run_len wrapped_len_state = 0 ∧
    run_len wrapped_len_state ≠ ((wrapped_len_state.regs.len + 1 : Nat) : Int) ∧
    ¬ (1 ≤ run_len wrapped_len_state) ∧
    ∃ s1, whost_dma_write 0 wrapped_len_state example_mem DMA_START 0x1 4 =
        some (s1, example_mem) ∧
      s1.regs.irq_sta = 0x42 := by
  refine ⟨by decide, rfl, by decide, by decide, by decide, _, rfl, ?_⟩
  decide

/-! ## Termination of the copy loop -/

/-- An iteration with chunk size 0 and a positive count: the count is
unchanged, the two accesses have size 0 and the memory contents are unchanged. -/
theorem whost_dma_run_body_stalled (src dst : Nat) (len : Int) (pm : PhysMem) (hl : 0 < len) :
    (whost_dma_run_body src dst 0 len pm).1 = len ∧
    (whost_dma_run_body src dst 0 len pm).2.mem = pm.mem ∧
    (whost_dma_run_body src dst 0 len pm).2.trace =
      pm.trace ++ [MemAccess.read src 0, MemAccess.write dst 0] := by
  have h0 : to_int32 (MIN 0 len) = 0 := by
    unfold to_int32 MIN
    split <;> omega
  have h1 : to_hwaddr 0 = 0 := by decide
  refine ⟨?_, ?_, ?_⟩
  · rw [whost_dma_run_body_len, h0]
    omega
  · funext a
    simp [whost_dma_run_body, cpu_physical_memory_read, cpu_physical_memory_write, h0, h1]
  · rw [whost_dma_run_body_trace, h0, h1]

/-- With chunk size 0 and a positive count, the count is the same after any
number of iterations. -/
theorem whost_dma_run_steps_stalled (src dst : Nat) (len : Int) (hl : 0 < len) :
    ∀ (k : Nat) (pm : PhysMem), (whost_dma_run_steps k src dst 0 len pm).1 = len := by
  intro k
  induction k with
  | zero =>
    intro pm
    rfl
  | succ k ih =>
    intro pm
    have hne : len ≠ 0 := by omega
    rw [whost_dma_run_steps_succ _ _ _ _ _ _ hne,
      (whost_dma_run_body_stalled src dst len pm hl).1]
    exact ih _

theorem run_rsize_zero (s : WHostDMAState) (hc : s.regs.control &&& 0xFF = 0) :
    run_rsize s = 0 := by
  unfold run_rsize DMA_CONTROLS_MAX_BYTES_MSK
  rw [hc]
  rfl

/-- With chunk size 0 and a nonzero initial count, `whost_dma_run` returns for
no amount of fuel. -/
theorem whost_dma_run_stalled (s : WHostDMAState) (pm : PhysMem)
    (hc : s.regs.control &&& 0xFF = 0) (hn : run_len s ≠ 0) :
    ∀ fuel, whost_dma_run fuel s pm = none := by
  intro fuel
  have hpos : 0 < run_len s := by
    have := run_len_nonneg s
    omega
  unfold whost_dma_run
  rw [whost_dma_run_loop_eq_steps, run_rsize_zero s hc,
    whost_dma_run_steps_stalled _ _ _ hpos fuel pm, if_neg hn]

/-- C12: the copy loop exits for every register state whose chunk size
`control & 0xFF` is in [1,255]. When the chunk size is 0 and the initial
remaining count is not 0, an iteration performs a read and a write of 0 bytes,
leaves memory and the remaining count unchanged, so the count is still the
initial, nonzero one after `k` iterations for every `k`; the loop returns for no
amount of fuel, and neither do `whost_dma_run`, whose update of `irq_sta`
comes after the loop, and a write to START with the trigger bit. -/
theorem copy_loop_termination (s : WHostDMAState) (pm : PhysMem) :
    ((1 ≤ s.regs.control &&& 0xFF ∧ s.regs.control &&& 0xFF ≤ 255) →
      ∃ fuel pm1, whost_dma_run_loop fuel (run_src s) s.regs.dst (run_rsize s) (run_len s) pm =
        some pm1) ∧
    (s.regs.control &&& 0xFF = 0 → run_len s ≠ 0 →
      (∀ pm0,
        (whost_dma_run_body (run_src s) s.regs.dst (run_rsize s) (run_len s) pm0).1 =
          run_len s ∧
        (whost_dma_run_body (run_src s) s.regs.dst (run_rsize s) (run_len s) pm0).2.mem =
          pm0.mem ∧
        (whost_dma_run_body (run_src s) s.regs.dst (run_rsize s) (run_len s) pm0).2.trace =
          pm0.trace ++ [MemAccess.read (run_src s) 0, MemAccess.write s.regs.dst 0]) ∧
      (∀ k,
        (whost_dma_run_steps k (run_src s) s.regs.dst (run_rsize s) (run_len s) pm).1 =
          run_len s ∧
        (whost_dma_run_steps k (run_src s) s.regs.dst (run_rsize s) (run_len s) pm).1 ≠ 0) ∧
      (∀ fuel,
        whost_dma_run_loop fuel (run_src s) s.regs.dst (run_rsize s) (run_len s) pm = none) ∧
      (∀ fuel, whost_dma_run fuel s pm = none) ∧
      (∀ fuel value size, value &&& DMA_START_START ≠ 0 →
        whost_dma_write fuel s pm DMA_START value size = none)) := by
  refine ⟨?_, ?_⟩
  · intro hc
    obtain ⟨pm1, h⟩ := whost_dma_run_loop_terminates (run_src s) s.regs.dst
      (s.regs.control &&& 0xFF) hc.1 hc.2 ((s.regs.len + 1) % 2 ^ 32)
      ((s.regs.len + 1) % 2 ^ 32) pm (Nat.le_refl _)
    exact ⟨_, pm1, h⟩
  · intro hc hn
    have hr := run_rsize_zero s hc
    have hpos : 0 < run_len s := by
      have := run_len_nonneg s
      omega
    have hsteps : ∀ k,
        (whost_dma_run_steps k (run_src s) s.regs.dst (run_rsize s) (run_len s) pm).1 =
          run_len s := by
      intro k
      rw [hr]
      exact whost_dma_run_steps_stalled _ _ _ hpos k pm
    have hloop : ∀ fuel,
        whost_dma_run_loop fuel (run_src s) s.regs.dst (run_rsize s) (run_len s) pm = none := by
      intro fuel
      rw [whost_dma_run_loop_eq_steps, hsteps fuel, if_neg hn]
    refine ⟨?_, ?_, hloop, ?_, ?_⟩
    · intro pm0
      rw [hr]
      exact whost_dma_run_body_stalled _ _ _ pm0 hpos
    · intro k
      exact ⟨hsteps k, by rw [hsteps k]; exact hn⟩
    · intro fuel
      unfold whost_dma_run
      rw [hloop fuel]
    · intro fuel value size hv
      rw [whost_dma_write_start_trigger fuel s pm value size hv,
        whost_dma_run_stalled { s with regs := { s.regs with start := value % 2 ^ 32 } } pm
          hc hn fuel]

/-- C12 at the example of the specification (chunk size 4: the loop exits)
and at the example with the low byte of CONTROLS zero (the loop never exits). -/
theorem copy_loop_termination_witness :
    ((1 ≤ example_state.regs.control &&& 0xFF ∧ example_state.regs.control &&& 0xFF ≤ 255) ∧
      ∃ fuel pm1, whost_dma_run_loop fuel (run_src example_state) example_state.regs.dst
        (run_rsize example_state) (run_len example_state) example_mem = some pm1) ∧
    (stalled_state.regs.control &&& 0xFF = 0 ∧ run_len stalled_state ≠ 0 ∧
      (∀ pm0,
        (whost_dma_run_body (run_src stalled_state) stalled_state.regs.dst
          (run_rsize stalled_state) (run_len stalled_state) pm0).1 = run_len stalled_state ∧
        (whost_dma_run_body (run_src stalled_state) stalled_state.regs.dst
          (run_rsize stalled_state) (run_len stalled_state) pm0).2.mem = pm0.mem ∧
        (whost_dma_run_body (run_src stalled_state) stalled_state.regs.dst
          (run_rsize stalled_state) (run_len stalled_state) pm0).2.trace =
          pm0.trace ++ [MemAccess.read (run_src stalled_state) 0,
            MemAccess.write stalled_state.regs.dst 0]) ∧
      (∀ k,
        (whost_dma_run_steps k (run_src stalled_state) stalled_state.regs.dst
          (run_rsize stalled_state) (run_len stalled_state) example_mem).1 =
          run_len stalled_state ∧
        (whost_dma_run_steps k (run_src stalled_state) stalled_state.regs.dst
          (run_rsize stalled_state) (run_len stalled_state) example_mem).1 ≠ 0) ∧
      (∀ fuel,
        whost_dma_run_loop fuel (run_src stalled_state) stalled_state.regs.dst
          (run_rsize stalled_state) (run_len stalled_state) example_mem = none) ∧
      (∀ fuel, whost_dma_run fuel stalled_state example_mem = none) ∧
      (∀ fuel value size, value &&& DMA_START_START ≠ 0 →
        whost_dma_write fuel stalled_state example_mem DMA_START value size = none)) :=
  ⟨⟨by decide, (copy_loop_termination example_state example_mem).1 (by decide)⟩,
    by decide, by decide,
    (copy_loop_termination stalled_state example_mem).2 (by decide) (by decide)⟩

/-! ## Addresses and sizes of the accesses of a transfer -/

/-- A loop that returns has reached a zero count within `fuel` iterations, and
returns the memory reached then. -/
theorem whost_dma_run_loop_some_steps (fuel src dst : Nat) (rsize len : Int)
    (pm pm1 : PhysMem) (h : whost_dma_run_loop fuel src dst rsize len pm = some pm1) :
    (whost_dma_run_steps fuel src dst rsize len pm).1 = 0 ∧
    (whost_dma_run_steps fuel src dst rsize len pm).2 = pm1 := by
  rw [whost_dma_run_loop_eq_steps] at h
  split at h
  · rename_i h0
    cases h
    exact ⟨h0, rfl⟩
  · cases h

/-- C13: when a write to START with the trigger bit returns, every memory read
of the transfer is at address `(base + src) mod 2^64` and every memory write at
address `dst`, the same in every iteration; and `base` and the registers
`control`, `src`, `len`, `dst`, `settings` and `irq_en` are as before. -/
theorem transfer_addresses_and_frame (s : WHostDMAState) (pm : PhysMem) (value size : Nat)
    (hv : value &&& DMA_START_START ≠ 0) :
    ∀ fuel s1 pm1, whost_dma_write fuel s pm DMA_START value size = some (s1, pm1) →
      (∃ acc, pm1.trace = pm.trace ++ acc ∧
        ∀ a ∈ acc, (a.isRead = true ∧ a.addr = (s.base + s.regs.src) % 2 ^ 64) ∨
          (a.isRead = false ∧ a.addr = s.regs.dst)) ∧
      s1.base = s.base ∧ s1.regs.control = s.regs.control ∧ s1.regs.src = s.regs.src ∧
      s1.regs.len = s.regs.len ∧ s1.regs.dst = s.regs.dst ∧
      s1.regs.settings = s.regs.settings ∧ s1.regs.irq_en = s.regs.irq_en := by
  intro fuel s1 pm1 hw
  obtain ⟨hloop, hs1⟩ := whost_dma_write_start_trigger_inv fuel s pm value size hv s1 pm1 hw
  have hsteps := (whost_dma_run_loop_some_steps _ _ _ _ _ _ _ hloop).2
  obtain ⟨acc, h1, h2⟩ := whost_dma_run_steps_addr (run_src s) s.regs.dst (run_rsize s) fuel
    (run_len s) pm
  rw [hsteps] at h1
  refine ⟨⟨acc, h1, h2⟩, ?_, ?_, ?_, ?_, ?_, ?_, ?_⟩
  · rw [hs1, whost_dma_update_irq_base]
  all_goals rw [hs1, whost_dma_update_irq_regs]

/-- C13 at the example of the specification, where the triggered write
returns. -/
theorem transfer_addresses_and_frame_witness :
    0x1 &&& DMA_START_START ≠ 0 ∧
    (∃ r, whost_dma_write 16 example_state example_mem DMA_START 0x1 4 = some r) ∧
    ∀ fuel s1 pm1,
      whost_dma_write fuel example_state example_mem DMA_START 0x1 4 = some (s1, pm1) →
      (∃ acc, pm1.trace = example_mem.trace ++ acc ∧
        ∀ a ∈ acc,
          (a.isRead = true ∧
            a.addr = (example_state.base + example_state.regs.src) % 2 ^ 64) ∨
          (a.isRead = false ∧ a.addr = example_state.regs.dst)) ∧
      s1.base = example_state.base ∧ s1.regs.control = example_state.regs.control ∧
      s1.regs.src = example_state.regs.src ∧ s1.regs.len = example_state.regs.len ∧
      s1.regs.dst = example_state.regs.dst ∧
      s1.regs.settings = example_state.regs.settings ∧
      s1.regs.irq_en = example_state.regs.irq_en :=
  ⟨by decide, ⟨_, rfl⟩,
    transfer_addresses_and_frame example_state example_mem 0x1 4 (by decide)⟩

/-- C20: for every register state, every access issued by the copy loop has a
size of at most 255 bytes (sizes are byte counts, so at least 0), less than the
256 bytes of the buffer. This holds for the accesses of the first `k`
iterations for every `k`, whether or not the loop ever exits, and so for the
accesses of every write to START that returns. -/
theorem transfer_access_sizes_bounded (s : WHostDMAState) (pm : PhysMem) :
    (∀ k, ∃ acc,
      (whost_dma_run_steps k (run_src s) s.regs.dst (run_rsize s) (run_len s) pm).2.trace =
        pm.trace ++ acc ∧
      ∀ a ∈ acc, 0 ≤ a.size ∧ a.size ≤ 255 ∧ a.size < 256) ∧
    (∀ fuel value size s1 pm1,
      whost_dma_write fuel s pm DMA_START value size = some (s1, pm1) →
      ∃ acc, pm1.trace = pm.trace ++ acc ∧
        ∀ a ∈ acc, 0 ≤ a.size ∧ a.size ≤ 255 ∧ a.size < 256) := by
  have hk : ∀ k, ∃ acc,
      (whost_dma_run_steps k (run_src s) s.regs.dst (run_rsize s) (run_len s) pm).2.trace =
        pm.trace ++ acc ∧
      ∀ a ∈ acc, 0 ≤ a.size ∧ a.size ≤ 255 ∧ a.size < 256 := by
    intro k
    obtain ⟨acc, h1, h2⟩ := whost_dma_run_steps_size (run_src s) s.regs.dst (run_rsize s)
      (run_rsize_range s) k (run_len s) pm (run_len_nonneg s)
    refine ⟨acc, h1, ?_⟩
    intro a ha
    have := h2 a ha
    omega
  refine ⟨hk, ?_⟩
  intro fuel value size s1 pm1 hw
  by_cases htrig : value &&& DMA_START_START = 0
  · rw [whost_dma_write_start_idle fuel s pm value size htrig] at hw
    cases hw
    exact ⟨[], by simp, by simp⟩
  · have hloop := (whost_dma_write_start_trigger_inv fuel s pm value size htrig s1 pm1 hw).1
    have hsteps := (whost_dma_run_loop_some_steps _ _ _ _ _ _ _ hloop).2
    obtain ⟨acc, h1, h2⟩ := hk fuel
    rw [hsteps] at h1
    exact ⟨acc, h1, h2⟩

/-! ## Acknowledging status bits -/

theorem testBit_and_0x3F (v i : Nat) :
    (v &&& 0x3F).testBit i = (v.testBit i && decide (i < 6)) := by
  have e : (0x3F : Nat) = 2 ^ 6 - 1 := by decide
  rw [Nat.testBit_and, e, Nat.testBit_two_pow_sub_one]

theorem testBit_0x40 (i : Nat) : Nat.testBit 0x40 i = decide (6 = i) := by
  have e : (0x40 : Nat) = 2 ^ 6 := by decide
  rw [e, Nat.testBit_two_pow]

/-- C14, as stated, fails: with `irq_sta = 0`, writing 0x1 to IRQ_STA leaves
`irq_sta = 1`. Bit 0 is set in the written value and is not clear after the
write, and it was clear before the write and is set after it. -/
theorem irq_sta_write_sets_clear_bit :
    ∃ s1 pm1, whost_dma_write 0 example_state example_mem DMA_IRQ_STA 0x1 4 = some (s1, pm1) ∧
      Nat.testBit 0x1 0 = true ∧
      example_state.regs.irq_sta.testBit 0 = false ∧
      s1.regs.irq_sta.testBit 0 = true := by
  refine ⟨_, _, rfl, ?_, ?_, ?_⟩
  · decide
  · decide
  · decide

/-- C14, amended: a write of `v` to IRQ_STA toggles. Each status bit in
positions 0 to 5 whose bit is set in `v` is clear after the write if it was set
before, and set after the write if it was clear before; and a status bit that
was clear before the write is set after it only in that case, in positions 0
to 5 with its bit set in `v`. -/
theorem irq_sta_write_toggles (fuel : Nat) (s : WHostDMAState) (pm : PhysMem)
    (v size : Nat) (hwf : state_wf s) :
    ∃ s1, whost_dma_write fuel s pm DMA_IRQ_STA v size = some (s1, pm) ∧
      (∀ i, i < 6 → v.testBit i = true → s.regs.irq_sta.testBit i = true →
        s1.regs.irq_sta.testBit i = false) ∧
      (∀ i, i < 6 → v.testBit i = true → s.regs.irq_sta.testBit i = false →
        s1.regs.irq_sta.testBit i = true) ∧
      (∀ i, s.regs.irq_sta.testBit i = false → s1.regs.irq_sta.testBit i = true →
        i < 6 ∧ v.testBit i = true) := by
  have hsta : s.regs.irq_sta < 2 ^ 32 := hwf.2.2.2.2.2.2.2.2
  have hx : ∀ i, (s.regs.irq_sta ^^^ (v &&& 0x3F)).testBit i =
      (s.regs.irq_sta.testBit i ^^ (v.testBit i && decide (i < 6))) := by
    intro i
    rw [Nat.testBit_xor, testBit_and_0x3F]
  have hs1 : (whost_dma_update_irq { s with regs := { s.regs with
      irq_sta := if (s.regs.irq_sta ^^^ (v &&& 0x3F)) % 2 ^ 32 = DMA_IRQ_STA_IN then 0
        else (s.regs.irq_sta ^^^ (v &&& 0x3F)) % 2 ^ 32 } }).regs.irq_sta =
      if s.regs.irq_sta ^^^ (v &&& 0x3F) = 0x40 then 0
      else s.regs.irq_sta ^^^ (v &&& 0x3F) := by
    rw [whost_dma_update_irq_regs]
    show (if (s.regs.irq_sta ^^^ (v &&& 0x3F)) % 2 ^ 32 = 0x40 then 0
      else (s.regs.irq_sta ^^^ (v &&& 0x3F)) % 2 ^ 32) = _
    rw [irq_sta_xor_mod _ _ hsta]
  refine ⟨_, whost_dma_write_irq_sta fuel s pm v size, ?_, ?_, ?_⟩
  · intro i hi hv hs
    rw [hs1]
    split
    · exact Nat.zero_testBit i
    · rw [hx, hs, hv]
      simp [hi]
  · intro i hi hv hs
    rw [hs1]
    have hbit : (s.regs.irq_sta ^^^ (v &&& 0x3F)).testBit i = true := by
      rw [hx, hs, hv]
      simp [hi]
    split
    · rename_i h40
      rw [h40, testBit_0x40] at hbit
      have : 6 = i := by simpa using hbit
      omega
    · exact hbit
  · intro i hs h1
    rw [hs1] at h1
    split at h1
    · rw [Nat.zero_testBit] at h1
      cases h1
    · rw [hx, hs] at h1
      simpa [and_comm] using h1

/-- C14, amended, at a status of 0x42 acknowledged with 0x02. -/
theorem irq_sta_write_toggles_witness :
    state_wf latched_state ∧
    ∃ s1, whost_dma_write 0 latched_state example_mem DMA_IRQ_STA 0x02 4 =
        some (s1, example_mem) ∧
      (∀ i, i < 6 → Nat.testBit 0x02 i = true → latched_state.regs.irq_sta.testBit i = true →
        s1.regs.irq_sta.testBit i = false) ∧
      (∀ i, i < 6 → Nat.testBit 0x02 i = true → latched_state.regs.irq_sta.testBit i = false →
        s1.regs.irq_sta.testBit i = true) ∧
      (∀ i, latched_state.regs.irq_sta.testBit i = false → s1.regs.irq_sta.testBit i = true →
        i < 6 ∧ Nat.testBit 0x02 i = true) :=
  ⟨by decide, irq_sta_write_toggles 0 latched_state example_mem 0x02 4 (by decide)⟩

/-! ## Offset decoding -/

/-- Only the low 12 bits of the offset are decoded by a read. -/
theorem whost_dma_read_mask (s : WHostDMAState) (offset size : Nat) :
    whost_dma_read s offset size = whost_dma_read s (offset &&& 0xFFF) size := by
  unfold whost_dma_read
  simp only [Nat.and_assoc, Nat.and_self]

/-- Only the low 12 bits of the offset are decoded by a write. -/
theorem whost_dma_write_mask (fuel : Nat) (s : WHostDMAState) (pm : PhysMem)
    (offset value size : Nat) :
    whost_dma_write fuel s pm offset value size =
      whost_dma_write fuel s pm (offset &&& 0xFFF) value size := by
  unfold whost_dma_write
  simp only [Nat.and_assoc, Nat.and_self]

/-- A read at an offset that is not decoded returns 0. -/
theorem whost_dma_read_undefined (s : WHostDMAState) (offset size : Nat)
    (h : offset &&& 0xFFF ∉ defined_offsets) : whost_dma_read s offset size = 0 := by
  simp only [defined_offsets, List.mem_cons, List.mem_singleton, List.not_mem_nil, or_false,
    not_or] at h
  unfold whost_dma_read
  simp [h]

/-- A write at an offset that is not decoded changes nothing. -/
theorem whost_dma_write_undefined (fuel : Nat) (s : WHostDMAState) (pm : PhysMem)
    (offset value size : Nat) (h : offset &&& 0xFFF ∉ defined_offsets) :
    whost_dma_write fuel s pm offset value size = some (s, pm) := by
  simp only [defined_offsets, List.mem_cons, List.mem_singleton, List.not_mem_nil, or_false,
    not_or] at h
  unfold whost_dma_write
  simp [h]

/-- An offset is one of the nine decoded ones, or it is not decoded. -/
theorem offset_decode (o : Nat) :
    o = DMA_START ∨ o = DMA_CONTROLS ∨ o = DMA_SRC_ADDR ∨ o = DMA_LEN ∨ o = DMA_DST_ADDR ∨
    o = DMA_DST_ADDR_HI ∨ o = DMA_SETTINGS ∨ o = DMA_IRQ_EN ∨ o = DMA_IRQ_STA ∨
    o ∉ defined_offsets := by
  by_cases h : o ∈ defined_offsets
  · simp only [defined_offsets, List.mem_cons, List.mem_singleton, List.not_mem_nil,
      or_false] at h
    tauto
  · tauto

/-- A write to DST_ADDR at any access width. -/
theorem whost_dma_write_dst_addr (fuel : Nat) (s : WHostDMAState) (pm : PhysMem)
    (value size : Nat) :
    whost_dma_write fuel s pm DMA_DST_ADDR value size =
      if size = 4 then
        some ({ s with regs := { s.regs with
          dst := (s.regs.dst &&& 0xFFFFFFFF00000000) ||| (value &&& 0xFFFFFFFF) } }, pm)
      else
        some ({ s with regs := { s.regs with dst := value % 2 ^ 64 } }, pm) := rfl

/-- A write that returns and is not decoded as IRQ_STA leaves `irq_sta` as it
was, or, for a triggered write to START, with the done and pending bits set. -/
theorem whost_dma_write_irq_sta_other (fuel : Nat) (s : WHostDMAState) (pm : PhysMem)
    (offset value size : Nat) (hoff : offset &&& 0xFFF ≠ DMA_IRQ_STA)
    (s1 : WHostDMAState) (pm1 : PhysMem)
    (hw : whost_dma_write fuel s pm offset value size = some (s1, pm1)) :
    s1.regs.irq_sta = s.regs.irq_sta ∨
    s1.regs.irq_sta =
      ((s.regs.irq_sta ||| DMA_IRQ_STA_DONE) % 2 ^ 32 ||| DMA_IRQ_STA_IN) % 2 ^ 32 := by
  rw [whost_dma_write_mask] at hw
  rcases offset_decode (offset &&& 0xFFF) with h | h | h | h | h | h | h | h | h | h
  · rw [h] at hw
    by_cases htrig : value &&& DMA_START_START = 0
    · rw [whost_dma_write_start_idle fuel s pm value size htrig] at hw
      cases hw
      left
      rw [whost_dma_update_irq_regs]
    · have hs1 := (whost_dma_write_start_trigger_inv fuel s pm value size htrig s1 pm1 hw).2
      right
      rw [hs1, whost_dma_update_irq_regs]
  · rw [h, whost_dma_write_controls] at hw
    cases hw
    exact Or.inl rfl
  · rw [h, whost_dma_write_src_addr] at hw
    cases hw
    exact Or.inl rfl
  · rw [h, whost_dma_write_len] at hw
    cases hw
    exact Or.inl rfl
  · rw [h, whost_dma_write_dst_addr] at hw
    split at hw <;> cases hw <;> exact Or.inl rfl
  · rw [h, whost_dma_write_dst_addr_hi] at hw
    cases hw
    exact Or.inl rfl
  · rw [h, whost_dma_write_settings] at hw
    cases hw
    exact Or.inl rfl
  · rw [h, whost_dma_write_irq_en] at hw
    cases hw
    left
    rw [whost_dma_update_irq_regs]
  · exact absurd h hoff
  · have hm : (offset &&& 0xFFF) &&& 0xFFF ∉ defined_offsets := by
      rw [Nat.and_assoc, Nat.and_self]
      exact h
    rw [whost_dma_write_undefined fuel s pm _ value size hm] at hw
    cases hw
    exact Or.inl rfl

/-! ## Status bits under the other writes -/

/-- C15: a bus write, of any value and width, that returns and whose offset
does not decode to IRQ_STA keeps every bit that was set in `irq_sta`. -/
theorem status_bits_kept_by_other_writes (s : WHostDMAState) (pm : PhysMem)
    (offset value size : Nat) (hwf : state_wf s) (hoff : offset &&& 0xFFF ≠ DMA_IRQ_STA) :
    ∀ fuel s1 pm1, whost_dma_write fuel s pm offset value size = some (s1, pm1) →
      ∀ i, s.regs.irq_sta.testBit i = true → s1.regs.irq_sta.testBit i = true := by
  intro fuel s1 pm1 hw i hi
  have hsta : s.regs.irq_sta < 2 ^ 32 := hwf.2.2.2.2.2.2.2.2
  rcases whost_dma_write_irq_sta_other fuel s pm offset value size hoff s1 pm1 hw with h | h
  · rw [h]
    exact hi
  · rw [h, irq_sta_done_in _ hsta, Nat.testBit_or, hi]
    rfl

/-- C15 at a triggered write to START from the latched example. -/
theorem status_bits_kept_by_other_writes_witness :
    state_wf latched_state ∧ DMA_START &&& 0xFFF ≠ DMA_IRQ_STA ∧
    (∃ r, whost_dma_write 16 latched_state example_mem DMA_START 0x1 4 = some r) ∧
    ∀ fuel s1 pm1,
      whost_dma_write fuel latched_state example_mem DMA_START 0x1 4 = some (s1, pm1) →
      ∀ i, latched_state.regs.irq_sta.testBit i = true → s1.regs.irq_sta.testBit i = true :=
  ⟨by decide, by decide, ⟨_, rfl⟩,
    status_bits_kept_by_other_writes latched_state example_mem DMA_START 0x1 4
      (by decide) (by decide)⟩

/-! ## Writes to the destination address -/

/-- C16: for a 64-bit `v` and destination `d`, a write of `v` to DST_ADDR with
access width 4 leaves `dst = (d AND 0xFFFFFFFF00000000) OR (v AND 0xFFFFFFFF)`,
with any other width it leaves `dst = v`, and a write of `v` to DST_ADDR_HI
with any width leaves `dst = (d AND 0xFFFFFFFF) OR ((v * 2^32) mod 2^64)`. In
each case the resulting device is the old one with only `dst` replaced, and
memory and its access log are as before. -/
theorem dst_addr_writes (fuel : Nat) (s : WHostDMAState) (pm : PhysMem) (v size : Nat)
    (hv : v < 2 ^ 64) :
    whost_dma_write fuel s pm DMA_DST_ADDR v 4 =
      some ({ s with regs := { s.regs with
        dst := (s.regs.dst &&& 0xFFFFFFFF00000000) ||| (v &&& 0xFFFFFFFF) } }, pm) ∧
    (size ≠ 4 →
      whost_dma_write fuel s pm DMA_DST_ADDR v size =
        some ({ s with regs := { s.regs with dst := v } }, pm)) ∧
    whost_dma_write fuel s pm DMA_DST_ADDR_HI v size =
      some ({ s with regs := { s.regs with
        dst := (s.regs.dst &&& 0xFFFFFFFF) ||| ((v * 2 ^ 32) % 2 ^ 64) } }, pm) := by
  refine ⟨whost_dma_write_dst_addr_4 fuel s pm v, ?_, ?_⟩
  · intro hsize
    rw [whost_dma_write_dst_addr, if_neg hsize, Nat.mod_eq_of_lt hv]
  · rw [whost_dma_write_dst_addr_hi, Nat.shiftLeft_eq]

/-- C16 at the example of the specification, with an 8-byte write. -/
theorem dst_addr_writes_witness :
    0x123456789A < 2 ^ 64 ∧ (8 : Nat) ≠ 4 ∧
    whost_dma_write 0 example_state example_mem DMA_DST_ADDR 0x123456789A 4 =
      some ({ example_state with regs := { example_state.regs with
        dst := (example_state.regs.dst &&& 0xFFFFFFFF00000000) |||
          (0x123456789A &&& 0xFFFFFFFF) } }, example_mem) ∧
    whost_dma_write 0 example_state example_mem DMA_DST_ADDR 0x123456789A 8 =
      some ({ example_state with regs := { example_state.regs with
        dst := 0x123456789A } }, example_mem) ∧
    whost_dma_write 0 example_state example_mem DMA_DST_ADDR_HI 0x123456789A 8 =
      some ({ example_state with regs := { example_state.regs with
        dst := (example_state.regs.dst &&& 0xFFFFFFFF) |||
          ((0x123456789A * 2 ^ 32) % 2 ^ 64) } }, example_mem) :=
  ⟨by decide, by decide,
    (dst_addr_writes 0 example_state example_mem 0x123456789A 8 (by decide)).1,
    (dst_addr_writes 0 example_state example_mem 0x123456789A 8 (by decide)).2.1 (by decide),
    (dst_addr_writes 0 example_state example_mem 0x123456789A 8 (by decide)).2.2⟩

/-! ## Writes that only store -/

/-- C17: a write of `v` to CONTROLS, SRC_ADDR, LEN or SETTINGS returns at once
the old device with that one register replaced by `v mod 2^32`: the other
registers, `base` and the line level are as before, and memory and its access
log are as before, so no memory access was performed. -/
theorem plain_register_writes (fuel : Nat) (s : WHostDMAState) (pm : PhysMem) (v size : Nat) :
    whost_dma_write fuel s pm DMA_CONTROLS v size =
      some ({ s with regs := { s.regs with control := v % 2 ^ 32 } }, pm) ∧
    whost_dma_write fuel s pm DMA_SRC_ADDR v size =
      some ({ s with regs := { s.regs with src := v % 2 ^ 32 } }, pm) ∧
    whost_dma_write fuel s pm DMA_LEN v size =
      some ({ s with regs := { s.regs with len := v % 2 ^ 32 } }, pm) ∧
    whost_dma_write fuel s pm DMA_SETTINGS v size =
      some ({ s with regs := { s.regs with settings := v % 2 ^ 32 } }, pm) := by
  refine ⟨?_, ?_, ?_, ?_⟩
  · exact whost_dma_write_controls fuel s pm v size
  · exact whost_dma_write_src_addr fuel s pm v size
  · exact whost_dma_write_len fuel s pm v size
  · exact whost_dma_write_settings fuel s pm v size

/-! ## Undefined offsets and aliasing -/

/-- C18: at an offset whose low 12 bits are not one of the nine defined
offsets, a read returns 0 and a write returns the device and memory unchanged;
and at every offset a read or write is the same access at `offset AND 0xFFF`. -/
theorem undefined_offsets_and_aliasing (fuel : Nat) (s : WHostDMAState) (pm : PhysMem)
    (offset value size : Nat) :
    (offset &&& 0xFFF ∉ [0x000, 0x004, 0x008, 0x00C, 0x010, 0x014, 0x018, 0x054, 0x058] →
      whost_dma_read s offset size = 0 ∧
      whost_dma_write fuel s pm offset value size = some (s, pm)) ∧
    whost_dma_read s offset size = whost_dma_read s (offset &&& 0xFFF) size ∧
    whost_dma_write fuel s pm offset value size =
      whost_dma_write fuel s pm (offset &&& 0xFFF) value size := by
  refine ⟨?_, whost_dma_read_mask s offset size, whost_dma_write_mask fuel s pm offset value size⟩
  intro h
  have h1 : offset &&& 0xFFF ∉ defined_offsets := h
  exact ⟨whost_dma_read_undefined s offset size h1,
    whost_dma_write_undefined fuel s pm offset value size h1⟩

/-- C18 at offset 0x1020, whose low 12 bits 0x020 are not a defined offset. -/
theorem undefined_offsets_and_aliasing_witness :
    0x1020 &&& 0xFFF ∉ [0x000, 0x004, 0x008, 0x00C, 0x010, 0x014, 0x018, 0x054, 0x058] ∧
    (whost_dma_read latched_state 0x1020 4 = 0 ∧
      whost_dma_write 0 latched_state example_mem 0x1020 0xFFFFFFFF 4 =
        some (latched_state, example_mem)) ∧
    whost_dma_read latched_state 0x1020 4 = whost_dma_read latched_state (0x1020 &&& 0xFFF) 4 ∧
    whost_dma_write 0 latched_state example_mem 0x1020 0xFFFFFFFF 4 =
      whost_dma_write 0 latched_state example_mem (0x1020 &&& 0xFFF) 0xFFFFFFFF 4 :=
  ⟨by decide,
    (undefined_offsets_and_aliasing 0 latched_state example_mem 0x1020 0xFFFFFFFF 4).1
      (by decide),
    (undefined_offsets_and_aliasing 0 latched_state example_mem 0x1020 0xFFFFFFFF 4).2⟩

/-! ## Reset and the settings register -/

/-- C19: the claim evaluated on the code. From a device fresh out of reset,
writing 0x30 to SETTINGS and resetting leaves `settings = 0x30`, which a read of
SETTINGS returns: `whost_dma_reset` assigns the seven other registers and not
`settings`. -/
theorem reset_keeps_settings :
    ∃ s pm,
      bus_run [BusOp.write 0 DMA_SETTINGS 0x30 4, BusOp.reset]
        (power_on 0x70000000, example_mem) = some (s, pm) ∧
      (power_on 0x70000000).regs.settings = 0 ∧
      s.regs.settings = 0x30 ∧ s.regs.settings ≠ 0 ∧
      whost_dma_read s DMA_SETTINGS 4 = 0x30 ∧
      s.regs.control = 0x1FFF ∧ s.regs.len = 0x3FFF ∧
      s.regs.start = 0 ∧ s.regs.src = 0 ∧ s.regs.dst = 0 ∧
      s.regs.irq_en = 0 ∧ s.regs.irq_sta = 0 := by
  refine ⟨_, _, rfl, rfl, ?_, ?_, ?_, ?_, ?_, ?_, ?_, ?_, ?_, ?_⟩
  all_goals decide

/-! ## The status register over reachable states -/

theorem or_0x42_lt (x : Nat) (hx : x < 0x80) : x ||| 0x42 < 0x80 := by
  have h1 : x < 2 ^ 7 := hx
  have h2 : (0x42 : Nat) < 2 ^ 7 := by decide
  exact Nat.or_lt_two_pow h1 h2

theorem or_0x42_ne_0x40 (x : Nat) : x ||| 0x42 ≠ 0x40 := by
  intro h
  have h1 : (x ||| 0x42).testBit 1 = true := by
    rw [Nat.testBit_or]
    have : Nat.testBit 0x42 1 = true := by decide
    rw [this, Bool.or_true]
  rw [h] at h1
  have h2 : Nat.testBit 0x40 1 = false := by decide
  rw [h2] at h1
  cases h1

theorem xor_0x3F_lt (x v : Nat) (hx : x < 0x80) : x ^^^ (v &&& 0x3F) < 0x80 := by
  have h1 : x < 2 ^ 7 := hx
  have h2 : v &&& 0x3F ≤ 0x3F := Nat.and_le_right
  have h3 : v &&& 0x3F < 2 ^ 7 := by omega
  exact Nat.xor_lt_two_pow h1 h3

/-- After a reset `irq_sta` is 0, below 0x80 and different from 0x40. -/
theorem reset_irq_sta_range (s : WHostDMAState) :
    (whost_dma_reset s).regs.irq_sta < 0x80 ∧ (whost_dma_reset s).regs.irq_sta ≠ 0x40 := by
  have h : ((0 : Nat) < 0x80) ∧ ((0 : Nat) ≠ 0x40) := ⟨by decide, by decide⟩
  exact h

/-- A write that returns keeps `irq_sta` below 0x80 and different from 0x40. -/
theorem whost_dma_write_irq_sta_range (fuel : Nat) (s : WHostDMAState) (pm : PhysMem)
    (offset value size : Nat) (hs : s.regs.irq_sta < 0x80 ∧ s.regs.irq_sta ≠ 0x40)
    (s1 : WHostDMAState) (pm1 : PhysMem)
    (hw : whost_dma_write fuel s pm offset value size = some (s1, pm1)) :
    s1.regs.irq_sta < 0x80 ∧ s1.regs.irq_sta ≠ 0x40 := by
  have h32 : s.regs.irq_sta < 2 ^ 32 := by
    have := hs.1
    omega
  by_cases hoff : offset &&& 0xFFF = DMA_IRQ_STA
  · rw [whost_dma_write_mask, hoff, whost_dma_write_irq_sta] at hw
    cases hw
    rw [whost_dma_update_irq_regs]
    show (if (s.regs.irq_sta ^^^ (value &&& 0x3F)) % 2 ^ 32 = 0x40 then 0
        else (s.regs.irq_sta ^^^ (value &&& 0x3F)) % 2 ^ 32) < 0x80 ∧
      (if (s.regs.irq_sta ^^^ (value &&& 0x3F)) % 2 ^ 32 = 0x40 then 0
        else (s.regs.irq_sta ^^^ (value &&& 0x3F)) % 2 ^ 32) ≠ 0x40
    rw [irq_sta_xor_mod _ _ h32]
    split
    · exact ⟨by decide, by decide⟩
    · rename_i hne
      exact ⟨xor_0x3F_lt _ _ hs.1, hne⟩
  · rcases whost_dma_write_irq_sta_other fuel s pm offset value size hoff s1 pm1 hw with h | h
    · rw [h]
      exact hs
    · rw [h, irq_sta_done_in _ h32]
      exact ⟨or_0x42_lt _ hs.1, or_0x42_ne_0x40 _⟩

/-- One bus operation keeps `irq_sta` below 0x80 and different from 0x40. -/
theorem bus_step_irq_sta_range (sp sp1 : WHostDMAState × PhysMem) (op : BusOp)
    (hs : sp.1.regs.irq_sta < 0x80 ∧ sp.1.regs.irq_sta ≠ 0x40)
    (h : bus_step sp op = some sp1) :
    sp1.1.regs.irq_sta < 0x80 ∧ sp1.1.regs.irq_sta ≠ 0x40 := by
  cases op with
  | write fuel offset value size =>
    exact whost_dma_write_irq_sta_range fuel sp.1 sp.2 offset value size hs sp1.1 sp1.2 h
  | read offset size =>
    simp only [bus_step, Option.some.injEq] at h
    rw [← h]
    exact hs
  | reset =>
    simp only [bus_step, Option.some.injEq] at h
    rw [← h]
    exact reset_irq_sta_range sp.1

/-- A sequence of bus operations keeps `irq_sta` below 0x80 and different from
0x40. -/
theorem bus_run_irq_sta_range (ops : List BusOp) :
    ∀ (sp sp1 : WHostDMAState × PhysMem),
      (sp.1.regs.irq_sta < 0x80 ∧ sp.1.regs.irq_sta ≠ 0x40) →
      bus_run ops sp = some sp1 →
      sp1.1.regs.irq_sta < 0x80 ∧ sp1.1.regs.irq_sta ≠ 0x40 := by
  induction ops with
  | nil =>
    intro sp sp1 hs h
    simp only [bus_run, Option.some.injEq] at h
    rw [← h]
    exact hs
  | cons op ops ih =>
    intro sp sp1 hs h
    rw [bus_run] at h
    split at h
    · cases h
    · rename_i sp2 hstep
      exact ih sp2 sp1 (bus_step_irq_sta_range sp sp2 op hs hstep) h

/-- A status below 0x80 and different from 0x40 that has the pending bit has
one of the bits 0 to 5 as well. -/
theorem pending_has_low_bit (x : Nat) (h1 : x < 0x80) (h2 : x ≠ 0x40) (h3 : x &&& 0x40 ≠ 0) :
    x &&& 0x3F ≠ 0 := by
  have e : (0x3F : Nat) = 2 ^ 6 - 1 := by decide
  rw [e, Nat.and_pow_two_sub_one_eq_mod]
  intro h0
  have hx : x = 0 := by omega
  rw [hx] at h3
  exact h3 (Nat.zero_and _)

/-- C21: in every state reached from a device that has just been reset, through
any finite sequence of register writes that return, register reads and
resets, `irq_sta` is less than 0x80 and is not 0x40; so whenever the pending
bit (bit 6) is set, one of the status bits 0 to 5 is set too. -/
theorem irq_sta_reachable_range (s0 : WHostDMAState) (pm0 : PhysMem) (ops : List BusOp)
    (s : WHostDMAState) (pm : PhysMem)
    (h : bus_run ops (whost_dma_reset s0, pm0) = some (s, pm)) :
    s.regs.irq_sta < 0x80 ∧ s.regs.irq_sta ≠ 0x40 ∧
    (s.regs.irq_sta &&& 0x40 ≠ 0 → s.regs.irq_sta &&& 0x3F ≠ 0) := by
  have h0 : (whost_dma_reset s0, pm0).1.regs.irq_sta < 0x80 ∧
      (whost_dma_reset s0, pm0).1.regs.irq_sta ≠ 0x40 := reset_irq_sta_range s0
  have hr := bus_run_irq_sta_range ops (whost_dma_reset s0, pm0) (s, pm) h0 h
  exact ⟨hr.1, hr.2, pending_has_low_bit _ hr.1 hr.2⟩

/-- C21 at a transfer followed by an acknowledge and a second transfer. -/
theorem irq_sta_reachable_range_witness :
    ∃ s pm,
      bus_run [BusOp.write 0 DMA_LEN 0x0 4, BusOp.write 1 DMA_START 0x1 4,
          BusOp.write 0 DMA_IRQ_STA 0x2 4, BusOp.write 1 DMA_START 0x1 4]
        (whost_dma_reset latched_state, example_mem) = some (s, pm) ∧
      s.regs.irq_sta = 0x42 ∧
      (s.regs.irq_sta < 0x80 ∧ s.regs.irq_sta ≠ 0x40 ∧
        (s.regs.irq_sta &&& 0x40 ≠ 0 → s.regs.irq_sta &&& 0x3F ≠ 0)) :=
  ⟨_, _, rfl, by decide,
    irq_sta_reachable_range latched_state example_mem
      [BusOp.write 0 DMA_LEN 0x0 4, BusOp.write 1 DMA_START 0x1 4,
        BusOp.write 0 DMA_IRQ_STA 0x2 4, BusOp.write 1 DMA_START 0x1 4] _ _ rfl⟩

/-! ## Number and sizes of the iterations -/

theorem ceil_div_of_dvd (c q : Nat) (hc : 0 < c) : ceil_div (c * q) c = q := by
  unfold ceil_div
  have h : c * q + c - 1 = (c - 1) + c * q := by omega
  rw [h, Nat.add_mul_div_left _ _ hc, Nat.div_eq_of_lt (by omega)]
  omega

theorem ceil_div_of_rem (c q r : Nat) (hr1 : 0 < r) (hr2 : r < c) :
    ceil_div (c * q + r) c = q + 1 := by
  unfold ceil_div
  have hc : 0 < c := by omega
  have h : c * q + r + c - 1 = (r - 1) + c + c * q := by omega
  rw [h, Nat.add_mul_div_left _ _ hc, Nat.add_div_right _ hc, Nat.div_eq_of_lt (by omega)]
  omega

/-- The chunk list has `ceil_div n c` entries. -/
theorem chunk_sizes_length (c n : Nat) (hc : 0 < c) :
    (chunk_sizes c n).length = ceil_div n c := by
  have hdm := Nat.div_add_mod n c
  unfold chunk_sizes
  split
  · rename_i h0
    have hn : n = c * (n / c) := by omega
    have := ceil_div_of_dvd c (n / c) hc
    rw [← hn] at this
    simp [this]
  · rename_i h0
    have hlt := Nat.mod_lt n hc
    have := ceil_div_of_rem c (n / c) (n % c) (by omega) hlt
    rw [hdm] at this
    simp [this]

/-- For a positive count the chunk list is full chunks followed by the last
chunk, which takes what the full chunks leave. -/
theorem chunk_sizes_eq (c n : Nat) (hc : 0 < c) (hn : 0 < n) :
    chunk_sizes c n =
      List.replicate (ceil_div n c - 1) c ++ [n - c * (ceil_div n c - 1)] := by
  have hdm := Nat.div_add_mod n c
  by_cases h0 : n % c = 0
  · have hn1 : n = c * (n / c) := by omega
    have hq : 0 < n / c := by
      rcases Nat.eq_zero_or_pos (n / c) with h | h
      · rw [h] at hn1
        omega
      · exact h
    have hceil : ceil_div n c = n / c := by
      have := ceil_div_of_dvd c (n / c) hc
      rw [← hn1] at this
      exact this
    have hlast : n - c * (n / c - 1) = c := by
      have h1 : c * (n / c - 1) + c = c * (n / c) := by
        have : n / c = (n / c - 1) + 1 := by omega
        conv => rhs; rw [this, Nat.mul_add, Nat.mul_one]
      omega
    have hrep : List.replicate (n / c) c = List.replicate (n / c - 1) c ++ [c] := by
      have : n / c = (n / c - 1) + 1 := by omega
      conv => lhs; rw [this, List.replicate_succ']
    rw [hceil, hlast]
    simp only [chunk_sizes, h0, if_true, List.append_nil]
    exact hrep
  · have hlt := Nat.mod_lt n hc
    have hceil : ceil_div n c = n / c + 1 := by
      have := ceil_div_of_rem c (n / c) (n % c) (by omega) hlt
      rw [hdm] at this
      exact this
    have hlast : n - c * (n / c) = n % c := by omega
    rw [hceil, Nat.add_sub_cancel, hlast]
    simp only [chunk_sizes, h0, if_false]

/-- With a chunk size in [1,255] the loop returns exactly when its fuel, the
bound on the number of iterations, is at least the number of chunks. -/
theorem whost_dma_run_loop_some_iff (src dst c : Nat) (hc1 : 0 < c) (hc2 : c ≤ 255) :
    ∀ (fuel n : Nat) (pm : PhysMem),
      (∃ pm1, whost_dma_run_loop fuel src dst (c : Int) (n : Int) pm = some pm1) ↔
        (chunk_sizes c n).length ≤ fuel := by
  intro fuel
  induction fuel with
  | zero =>
    intro n pm
    rcases Nat.eq_zero_or_pos n with h0 | hpos
    · subst h0
      rw [Nat.cast_zero, whost_dma_run_loop_zero, chunk_sizes_zero]
      simp
    · have hne : (n : Int) ≠ 0 := by omega
      rw [whost_dma_run_loop_no_fuel _ _ _ _ _ hne, chunk_sizes_step c n hc1 hpos]
      simp
  | succ fuel ih =>
    intro n pm
    rcases Nat.eq_zero_or_pos n with h0 | hpos
    · subst h0
      rw [Nat.cast_zero, whost_dma_run_loop_zero, chunk_sizes_zero]
      simp
    · have hne : (n : Int) ≠ 0 := by omega
      rw [whost_dma_run_loop_succ _ _ _ _ _ _ hne, whost_dma_run_body_eq _ _ _ _ hc2,
        chunk_sizes_step c n hc1 hpos, ih, List.length_cons]
      omega

/-- A triggered write to START returns exactly when the loop does. -/
theorem whost_dma_write_start_some_iff (fuel : Nat) (s : WHostDMAState) (pm : PhysMem)
    (value size : Nat) (hv : value &&& DMA_START_START ≠ 0) :
    (∃ r, whost_dma_write fuel s pm DMA_START value size = some r) ↔
      ∃ pm1, whost_dma_run_loop fuel (run_src s) s.regs.dst (run_rsize s) (run_len s) pm =
        some pm1 := by
  constructor
  · rintro ⟨⟨s1, pm1⟩, h⟩
    exact ⟨pm1, (whost_dma_write_start_trigger_inv fuel s pm value size hv s1 pm1 h).1⟩
  · rintro ⟨pm1, h⟩
    exact ⟨_, whost_dma_write_start_trigger_of_loop fuel s pm pm1 value size hv h⟩

/-- A remaining count of at least 1 in a well-formed state is `len + 1`. -/
theorem run_len_of_pos (s : WHostDMAState) (hwf : state_wf s) (hn : 1 ≤ run_len s) :
    (s.regs.len + 1) % 2 ^ 32 = s.regs.len + 1 := by
  have hlen : s.regs.len < 2 ^ 32 := hwf.2.2.2.2.1
  unfold run_len at hn
  omega

/-- C22, as stated, fails at LEN = 0xFFFFFFFF: the chunk size is 4, in
[1,255], and `n = len + 1 = 2^32` is at least 1, so `ceil(n/c) = 2^30`; but the
sum `len + 1` wraps to 0 in 32 bits, and the triggered write returns with fuel
for no iteration at all and with memory and its access log untouched. -/
theorem wrapped_len_runs_no_iteration :
    (1 ≤ wrapped_len_state.regs.control &&& 0xFF ∧
      wrapped_len_state.regs.control &&& 0xFF ≤ 255) ∧
    1 ≤ wrapped_len_state.regs.len + 1 ∧
    0x1 &&& DMA_START_START ≠ 0 ∧
    ceil_div (wrapped_len_state.regs.len + 1) (wrapped_len_state.regs.control &&& 0xFF) =
      0x40000000 ∧
    (∃ s1, whost_dma_write 0 wrapped_len_state example_mem DMA_START 0x1 4 =
      some (s1, example_mem)) ∧
    ¬ ((∃ r, whost_dma_write 0 wrapped_len_state example_mem DMA_START 0x1 4 = some r) ↔
      ceil_div (wrapped_len_state.regs.len + 1) (wrapped_len_state.regs.control &&& 0xFF) ≤
        0) := by
  refine ⟨by decide, by decide, by decide, by decide, ⟨_, rfl⟩, ?_⟩
  intro h
  have h1 : ceil_div (wrapped_len_state.regs.len + 1)
      (wrapped_len_state.regs.control &&& 0xFF) ≤ 0 := h.mp ⟨_, rfl⟩
  have h2 : ¬ (ceil_div (wrapped_len_state.regs.len + 1)
      (wrapped_len_state.regs.control &&& 0xFF) ≤ 0) := by decide
  exact h2 h1

/-- C22, amended: for a chunk size `c = control & 0xFF` in [1,255] and LEN below
0xFFFFFFFF, the remaining count the transfer starts with is `n = len + 1`, at
least 1, and a triggered transfer performs exactly `ceil(n/c)` iterations: the
write returns exactly when the fuel, which bounds the number of iterations, is
at least `ceil(n/c)`. Each iteration is one read followed by one write of the
same size; every iteration but the last moves `c` bytes and the last moves
`n - c * (ceil(n/c) - 1)`. -/
theorem transfer_iterations (s : WHostDMAState) (pm : PhysMem) (value size : Nat)
    (hc : 1 ≤ s.regs.control &&& 0xFF ∧ s.regs.control &&& 0xFF ≤ 255)
    (hlen : s.regs.len < 0xFFFFFFFF) (hv : value &&& DMA_START_START ≠ 0) :
    run_len s = ((s.regs.len + 1 : Nat) : Int) ∧ 1 ≤ run_len s ∧
    (∀ fuel, (∃ r, whost_dma_write fuel s pm DMA_START value size = some r) ↔
      ceil_div (s.regs.len + 1) (s.regs.control &&& 0xFF) ≤ fuel) ∧
    (∀ fuel s1 pm1, whost_dma_write fuel s pm DMA_START value size = some (s1, pm1) →
      pm1.trace = pm.trace ++ chunk_accesses (run_src s) s.regs.dst
        (List.replicate (ceil_div (s.regs.len + 1) (s.regs.control &&& 0xFF) - 1)
            (s.regs.control &&& 0xFF) ++
          [s.regs.len + 1 - (s.regs.control &&& 0xFF) *
            (ceil_div (s.regs.len + 1) (s.regs.control &&& 0xFF) - 1)])) := by
  have hmod : (s.regs.len + 1) % 2 ^ 32 = s.regs.len + 1 := Nat.mod_eq_of_lt (by omega)
  have hrun : run_len s = ((s.regs.len + 1 : Nat) : Int) := by
    unfold run_len
    rw [hmod]
  refine ⟨hrun, ?_, ?_, ?_⟩
  · rw [hrun]
    omega
  · intro fuel
    rw [whost_dma_write_start_some_iff fuel s pm value size hv]
    have h := whost_dma_run_loop_some_iff (run_src s) s.regs.dst (s.regs.control &&& 0xFF)
      hc.1 hc.2 fuel ((s.regs.len + 1) % 2 ^ 32) pm
    rw [hmod, chunk_sizes_length _ _ hc.1] at h
    rw [← h]
    unfold run_len run_rsize DMA_CONTROLS_MAX_BYTES_MSK
    rw [hmod]
  · intro fuel s1 pm1 hw
    have htr := whost_dma_write_start_trace s pm value size hc.1 hv fuel s1 pm1 hw
    rw [hmod, chunk_sizes_eq _ _ hc.1 (Nat.succ_pos _)] at htr
    exact htr

/-- C22, amended, at the example of the specification: 16 bytes in chunks of 4
take 4 iterations. -/
theorem transfer_iterations_witness :
    (1 ≤ example_state.regs.control &&& 0xFF ∧ example_state.regs.control &&& 0xFF ≤ 255) ∧
    example_state.regs.len < 0xFFFFFFFF ∧ 0x1 &&& DMA_START_START ≠ 0 ∧
    ceil_div (example_state.regs.len + 1) (example_state.regs.control &&& 0xFF) = 4 ∧
    (run_len example_state = ((example_state.regs.len + 1 : Nat) : Int) ∧
    1 ≤ run_len example_state ∧
    (∀ fuel, (∃ r, whost_dma_write fuel example_state example_mem DMA_START 0x1 4 = some r) ↔
      ceil_div (example_state.regs.len + 1) (example_state.regs.control &&& 0xFF) ≤ fuel) ∧
    (∀ fuel s1 pm1,
      whost_dma_write fuel example_state example_mem DMA_START 0x1 4 = some (s1, pm1) →
      pm1.trace = example_mem.trace ++
        chunk_accesses (run_src example_state) example_state.regs.dst
          (List.replicate
              (ceil_div (example_state.regs.len + 1)
                (example_state.regs.control &&& 0xFF) - 1)
              (example_state.regs.control &&& 0xFF) ++
            [example_state.regs.len + 1 - (example_state.regs.control &&& 0xFF) *
              (ceil_div (example_state.regs.len + 1)
                (example_state.regs.control &&& 0xFF) - 1)]))) :=
  ⟨by decide, by decide, by decide, by decide,
    transfer_iterations example_state example_mem 0x1 4
      (by decide) (by decide) (by decide)⟩

/-! ## Triggering twice -/

/-- Setting the done and pending bits a second time changes nothing. -/
theorem irq_sta_done_in_idem (x : Nat) (hx : x < 2 ^ 32) :
    ((((x ||| DMA_IRQ_STA_DONE) % 2 ^ 32 ||| DMA_IRQ_STA_IN) % 2 ^ 32 ||| DMA_IRQ_STA_DONE) %
        2 ^ 32 ||| DMA_IRQ_STA_IN) % 2 ^ 32 =
      ((x ||| DMA_IRQ_STA_DONE) % 2 ^ 32 ||| DMA_IRQ_STA_IN) % 2 ^ 32 := by
  have h42 : (0x42 : Nat) < 2 ^ 32 := by decide
  have h1 : x ||| 0x42 < 2 ^ 32 := Nat.or_lt_two_pow hx h42
  rw [irq_sta_done_in x hx, irq_sta_done_in _ h1, Nat.or_assoc, Nat.or_self]

/-- The result of `whost_dma_update_irq` depends on `base` and the registers
only, not on the level the line had. -/
theorem whost_dma_update_irq_congr (a b : WHostDMAState) (hb : a.base = b.base)
    (hr : a.regs = b.regs) : whost_dma_update_irq a = whost_dma_update_irq b := by
  cases a with
  | mk abase airq aregs =>
    cases b with
    | mk bbase birq bregs =>
      simp only at hb hr
      subst hb
      subst hr
      unfold whost_dma_update_irq qemu_irq_raise qemu_irq_lower
      dsimp only

/-- The device after a triggered write to START that returns, applied twice. -/
theorem whost_dma_write_start_twice (s : WHostDMAState) (pm : PhysMem) (value size : Nat)
    (hwf : state_wf s) (hv : value &&& DMA_START_START ≠ 0)
    (f1 f2 : Nat) (s1 s2 : WHostDMAState) (pm1 pm2 : PhysMem)
    (h1 : whost_dma_write f1 s pm DMA_START value size = some (s1, pm1))
    (h2 : whost_dma_write f2 s1 pm1 DMA_START value size = some (s2, pm2)) :
    s2 = s1 ∧ s1.base = s.base ∧ s1.regs.control = s.regs.control ∧
    s1.regs.src = s.regs.src ∧ s1.regs.len = s.regs.len ∧ s1.regs.dst = s.regs.dst := by
  have hsta : s.regs.irq_sta < 2 ^ 32 := hwf.2.2.2.2.2.2.2.2
  have hs1 := (whost_dma_write_start_trigger_inv f1 s pm value size hv s1 pm1 h1).2
  have hs2 := (whost_dma_write_start_trigger_inv f2 s1 pm1 value size hv s2 pm2 h2).2
  have hr1 : s1.regs = { s.regs with
      start := value % 2 ^ 32,
      irq_sta := ((s.regs.irq_sta ||| DMA_IRQ_STA_DONE) % 2 ^ 32 ||| DMA_IRQ_STA_IN) % 2 ^ 32 } := by
    rw [hs1, whost_dma_update_irq_regs]
  have hb1 : s1.base = s.base := by
    rw [hs1, whost_dma_update_irq_base]
  refine ⟨?_, hb1, by rw [hr1], by rw [hr1], by rw [hr1], by rw [hr1]⟩
  rw [hs2]
  conv => rhs; rw [hs1]
  apply whost_dma_update_irq_congr
  · exact hb1
  · show ({ s1.regs with
      start := value % 2 ^ 32,
      irq_sta := ((s1.regs.irq_sta ||| DMA_IRQ_STA_DONE) % 2 ^ 32 ||| DMA_IRQ_STA_IN) % 2 ^ 32 } :
        whost_dma_regs) = _
    rw [hr1]
    show ({ s.regs with
      start := value % 2 ^ 32,
      irq_sta := ((((s.regs.irq_sta ||| DMA_IRQ_STA_DONE) % 2 ^ 32 ||| DMA_IRQ_STA_IN) % 2 ^ 32 |||
        DMA_IRQ_STA_DONE) % 2 ^ 32 ||| DMA_IRQ_STA_IN) % 2 ^ 32 } : whost_dma_regs) = _
    rw [irq_sta_done_in_idem _ hsta]

/-- C23: for a chunk size in [1,255] and a value `v` with bit 0 set, two
writes of `v` to START in a row both return; the device after the second,
registers and line level, is the device after the first, and the second
transfer appends to the access log the same sequence of accesses, with the same
addresses and sizes, as the first. -/
theorem start_twice_idempotent (s : WHostDMAState) (pm : PhysMem) (v size : Nat)
    (hwf : state_wf s)
    (hc : 1 ≤ s.regs.control &&& 0xFF ∧ s.regs.control &&& 0xFF ≤ 255)
    (hv : v &&& DMA_START_START ≠ 0) :
    (∃ f1 f2 s1 pm1 s2 pm2,
      whost_dma_write f1 s pm DMA_START v size = some (s1, pm1) ∧
      whost_dma_write f2 s1 pm1 DMA_START v size = some (s2, pm2)) ∧
    ∀ f1 f2 s1 pm1 s2 pm2,
      whost_dma_write f1 s pm DMA_START v size = some (s1, pm1) →
      whost_dma_write f2 s1 pm1 DMA_START v size = some (s2, pm2) →
      s2.regs = s1.regs ∧ s2.irq = s1.irq ∧ s2 = s1 ∧
      ∃ acc, pm1.trace = pm.trace ++ acc ∧ pm2.trace = pm1.trace ++ acc := by
  have hall : ∀ f1 f2 s1 pm1 s2 pm2,
      whost_dma_write f1 s pm DMA_START v size = some (s1, pm1) →
      whost_dma_write f2 s1 pm1 DMA_START v size = some (s2, pm2) →
      s2.regs = s1.regs ∧ s2.irq = s1.irq ∧ s2 = s1 ∧
      ∃ acc, pm1.trace = pm.trace ++ acc ∧ pm2.trace = pm1.trace ++ acc := by
    intro f1 f2 s1 pm1 s2 pm2 h1 h2
    obtain ⟨heq, hb, hctl, hsrc, hlen, hdst⟩ :=
      whost_dma_write_start_twice s pm v size hwf hv f1 f2 s1 s2 pm1 pm2 h1 h2
    have hc1 : 1 ≤ s1.regs.control &&& 0xFF := by
      rw [hctl]
      exact hc.1
    have ht1 := whost_dma_write_start_trace s pm v size hc.1 hv f1 s1 pm1 h1
    have ht2 := whost_dma_write_start_trace s1 pm1 v size hc1 hv f2 s2 pm2 h2
    have hsrc1 : run_src s1 = run_src s := by
      unfold run_src
      rw [hb, hsrc]
    rw [hsrc1, hdst, hctl, hlen] at ht2
    exact ⟨by rw [heq], by rw [heq], heq, _, ht1, ht2⟩
  refine ⟨?_, hall⟩
  obtain ⟨⟨s1, pm1⟩, h1⟩ := whost_dma_write_start_terminates s pm v size hc.1 hv _
    (Nat.le_refl _)
  have hs1 := (whost_dma_write_start_trigger_inv _ s pm v size hv s1 pm1 h1).2
  have hctl : s1.regs.control = s.regs.control := by
    rw [hs1, whost_dma_update_irq_regs]
  have hc1 : 1 ≤ s1.regs.control &&& 0xFF := by
    rw [hctl]
    exact hc.1
  obtain ⟨⟨s2, pm2⟩, h2⟩ := whost_dma_write_start_terminates s1 pm1 v size hc1 hv _
    (Nat.le_refl _)
  exact ⟨_, _, s1, pm1, s2, pm2, h1, h2⟩

/-- C23 at the example of the specification. -/
theorem start_twice_idempotent_witness :
    state_wf example_state ∧
    (1 ≤ example_state.regs.control &&& 0xFF ∧ example_state.regs.control &&& 0xFF ≤ 255) ∧
    0x1 &&& DMA_START_START ≠ 0 ∧
    ((∃ f1 f2 s1 pm1 s2 pm2,
      whost_dma_write f1 example_state example_mem DMA_START 0x1 4 = some (s1, pm1) ∧
      whost_dma_write f2 s1 pm1 DMA_START 0x1 4 = some (s2, pm2)) ∧
    ∀ f1 f2 s1 pm1 s2 pm2,
      whost_dma_write f1 example_state example_mem DMA_START 0x1 4 = some (s1, pm1) →
      whost_dma_write f2 s1 pm1 DMA_START 0x1 4 = some (s2, pm2) →
      s2.regs = s1.regs ∧ s2.irq = s1.irq ∧ s2 = s1 ∧
      ∃ acc, pm1.trace = example_mem.trace ++ acc ∧ pm2.trace = pm1.trace ++ acc) :=
  ⟨by decide, by decide, by decide,
    start_twice_idempotent example_state example_mem 0x1 4
      (by decide) (by decide) (by decide)⟩

end WhostDma
